import Mathlib

/-!
Verification of the tiered-cache / fetch-coordination core of DecoTV.

The definitions below are shallow embeddings of:
  * the unified cache layer (class MemoryCache, class LocalStorageCache,
    class UnifiedCache, function generateCacheKey) from
    src/lib/version_check.ts; and
  * the fetch coordinator (hook useCachedData) from
    src/hooks/useDoubanInfo.ts.

Modelling conventions:
  * JS Map iteration order is modelled by an association list whose head is
    the oldest (first-inserted) entry; Map.set of an existing key updates the
    value in place (no reordering), Map.set of a new key appends at the end,
    exactly as in the ECMAScript Map semantics the source relies on.
  * Timestamps are naturals (epoch milliseconds); the expiry test
    (now - timestamp) / 1000 > ttl is modelled over naturals as
    now - timestamp > ttl * 1000, which is equivalent over the reals.
  * localStorage is a string-keyed store; a stored value is modelled as
    Option (CacheEntry T): some e is a value that JSON.parse recovers as e,
    none is a corrupt value on which JSON.parse throws.  localStorage.setItem
    can fail (quota); each call site passes an explicit Bool saying whether
    that attempt succeeds, which models the quota oracle.
-/

namespace DecoTV

/-- One stored cache record: the payload, the epoch-millisecond write time and
the time-to-live in seconds (interface CacheEntry in version_check.ts). -/
structure CacheEntry (T : Type) where
  data : T
  timestamp : Nat
  ttl : Nat
deriving DecidableEq, Repr

/-- The lazily evaluated expiry test (now - timestamp) / 1000 > ttl used by
both tiers, written over naturals. -/
def entryExpired {T : Type} (e : CacheEntry T) (now : Nat) : Bool :=
  decide (now - e.timestamp > e.ttl * 1000)

/-- ECMAScript Map.get / localStorage.getItem: first (and, with the unique
keys both stores guarantee, only) value bound to the key. -/
def keyFind {V : Type} : List (String × V) → String → Option V
  | [], _ => none
  | p :: t, k => if p.1 = k then some p.2 else keyFind t k

/-- ECMAScript Map.set: update in place when the key is present (iteration
order is preserved), append at the end when it is new. -/
def mapSet {V : Type} (l : List (String × V)) (k : String) (v : V) :
    List (String × V) :=
  if (keyFind l k).isSome then
    l.map (fun p => if p.1 = k then (k, v) else p)
  else
    l ++ [(k, v)]

/-- ECMAScript Map.delete / localStorage.removeItem: drop the key. -/
def mapDelete {V : Type} (l : List (String × V)) (k : String) :
    List (String × V) :=
  l.filter (fun p => p.1 != k)

/-- Character-list prefix test, modelling String.prototype.startsWith. -/
def charsLead : List Char → List Char → Bool
  | [], _ => true
  | _ :: _, [] => false
  | a :: as, b :: bs => a == b && charsLead as bs

/-- s.startsWith(p) on strings. -/
def strStartsWith (s p : String) : Bool :=
  charsLead p.data s.data

/- ===================== MemoryCache (FastTier) =====================
   class MemoryCache of src/lib/version_check.ts.  The store is the JS Map,
   head = oldest inserted; maxSize is the constructor argument. -/

/-- MemoryCache.set: if size >= maxSize, evict the first iteration-order key
(the JS code reads store.keys().next().value and deletes it only when it is
truthy, i.e. present and not the empty string), then Map.set the new entry. -/
def memSet {T : Type} (maxSize : Nat) (store : List (String × CacheEntry T))
    (key : String) (d : T) (ttlSeconds : Nat) (now : Nat) :
    List (String × CacheEntry T) :=
  let afterEvict :=
    if store.length ≥ maxSize then
      match store with
      | [] => store
      | (k0, _) :: rest => if k0 = "" then store else rest
    else store
  mapSet afterEvict key { data := d, timestamp := now, ttl := ttlSeconds }

/-- MemoryCache.get: miss on absence; an expired entry is deleted and misses;
a live entry is moved to the end (delete + set) and its data returned. -/
def memGet {T : Type} (store : List (String × CacheEntry T)) (key : String)
    (now : Nat) : Option T × List (String × CacheEntry T) :=
  match keyFind store key with
  | none => (none, store)
  | some e =>
    if entryExpired e now then
      (none, mapDelete store key)
    else
      (some e.data, mapSet (mapDelete store key) key e)

/- ===================== LocalStorageCache (DurableTier) =====================
   class LocalStorageCache of src/lib/version_check.ts.  Keys in the store are
   full keys (namespace plus logical key); values are parse results. -/

/-- Entries that LocalStorageCache.cleanExpired collects for deletion: corrupt
values (JSON.parse throws) and expired values. -/
def lsStale {T : Type} (v : Option (CacheEntry T)) (now : Nat) : Bool :=
  match v with
  | none => true
  | some e => entryExpired e now

/-- LocalStorageCache.cleanExpired: enumerate the store, collect every key of
this namespace whose value is corrupt or expired, then remove each collected
key; returns the number of removed keys and the new store. -/
def lsCleanExpired {T : Type} (pfx : String)
    (items : List (String × Option (CacheEntry T))) (now : Nat) :
    Nat × List (String × Option (CacheEntry T)) :=
  let keysToDelete :=
    (items.filter (fun p => strStartsWith p.1 pfx && lsStale p.2 now)).map
      Prod.fst
  (keysToDelete.length, keysToDelete.foldl (fun acc k => mapDelete acc k) items)

/-- LocalStorageCache.set: try setItem; on failure run cleanExpired once and
retry setItem exactly once; a second failure is silently ignored.  ok1 and ok2
say whether the first and the retried setItem succeed (quota oracle).  The
function is total: no branch raises. -/
def lsSet {T : Type} (pfx : String)
    (items : List (String × Option (CacheEntry T))) (key : String) (d : T)
    (ttlSeconds : Nat) (now : Nat) (ok1 ok2 : Bool) :
    List (String × Option (CacheEntry T)) :=
  let fullKey := pfx ++ key
  let entry : CacheEntry T := { data := d, timestamp := now, ttl := ttlSeconds }
  if ok1 then
    mapSet items fullKey (some entry)
  else
    let cleaned := (lsCleanExpired pfx items now).2
    if ok2 then mapSet cleaned fullKey (some entry) else cleaned

/-- LocalStorageCache.get: absent is a miss; a corrupt value is removed and
misses; an expired value is removed and misses; otherwise the data is
returned and the store is unchanged. -/
def lsGet {T : Type} (pfx : String)
    (items : List (String × Option (CacheEntry T))) (key : String)
    (now : Nat) : Option T × List (String × Option (CacheEntry T)) :=
  let fullKey := pfx ++ key
  match keyFind items fullKey with
  | none => (none, items)
  | some none => (none, mapDelete items fullKey)
  | some (some e) =>
    if entryExpired e now then
      (none, mapDelete items fullKey)
    else
      (some e.data, items)

/-- LocalStorageCache.delete. -/
def lsDelete {T : Type} (pfx : String)
    (items : List (String × Option (CacheEntry T))) (key : String) :
    List (String × Option (CacheEntry T)) :=
  mapDelete items (pfx ++ key)

/- ===================== UnifiedCache (TieredCache facade) ===================== -/

/-- The Required CacheConfig of a UnifiedCache instance. -/
structure CacheConfig where
  enableMemory : Bool
  enableLocalStorage : Bool
  defaultTTL : Nat
  maxMemoryEntries : Nat
  lsNamespace : String
deriving DecidableEq, Repr

/-- The mutable state of a UnifiedCache: the memory tier's Map and the
localStorage store. -/
structure UnifiedCache (T : Type) where
  mem : List (String × CacheEntry T)
  ls : List (String × Option (CacheEntry T))
deriving DecidableEq, Repr

/-- The configuration of the process-wide globalCache instance of
src/lib/version_check.ts. -/
def globalConfig : CacheConfig :=
  { enableMemory := true
    enableLocalStorage := true
    defaultTTL := 3600
    maxMemoryEntries := 100
    lsNamespace := "deco-cache:" }

/-- UnifiedCache.get: try the memory tier, then localStorage; on a
localStorage hit, backfill the memory tier with the retrieved data and the
configured defaultTTL before returning. -/
def cacheGet {T : Type} (cfg : CacheConfig) (c : UnifiedCache T)
    (key : String) (now : Nat) : Option T × UnifiedCache T :=
  let step1 : Option T × UnifiedCache T :=
    if cfg.enableMemory then
      let r := memGet c.mem key now
      (r.1, { c with mem := r.2 })
    else (none, c)
  match step1 with
  | (some v, c1) => (some v, c1)
  | (none, c1) =>
    if cfg.enableLocalStorage then
      let r := lsGet cfg.lsNamespace c1.ls key now
      match r.1 with
      | some v =>
        let c2 := { c1 with ls := r.2 }
        if cfg.enableMemory then
          (some v,
            { c2 with
              mem := memSet cfg.maxMemoryEntries c2.mem key v cfg.defaultTTL now })
        else (some v, c2)
      | none => (none, { c1 with ls := r.2 })
    else (none, c1)

/-- UnifiedCache.set: write to every enabled tier.  ok1 and ok2 are the quota
oracle for the localStorage write's two attempts. -/
def cacheSet {T : Type} (cfg : CacheConfig) (c : UnifiedCache T)
    (key : String) (d : T) (ttlSeconds : Nat) (now : Nat) (ok1 ok2 : Bool) :
    UnifiedCache T :=
  let c1 :=
    if cfg.enableMemory then
      { c with mem := memSet cfg.maxMemoryEntries c.mem key d ttlSeconds now }
    else c
  if cfg.enableLocalStorage then
    { c1 with ls := lsSet cfg.lsNamespace c1.ls key d ttlSeconds now ok1 ok2 }
  else c1

/-- UnifiedCache.delete: remove from both tiers unconditionally. -/
def cacheDelete {T : Type} (cfg : CacheConfig) (c : UnifiedCache T)
    (key : String) : UnifiedCache T :=
  { mem := mapDelete c.mem key, ls := lsDelete cfg.lsNamespace c.ls key }

/- ===================== KeyBuilder (generateCacheKey) ===================== -/

/-- Three-way comparison of naturals. -/
def cmpNat (a b : Nat) : Ordering :=
  if a < b then .lt else if a = b then .eq else .gt

/-- Lexicographic extension of a three-way comparison to lists. -/
def cmpLex {A : Type} (cmp : A → A → Ordering) : List A → List A → Ordering
  | [], [] => .eq
  | [], _ :: _ => .lt
  | _ :: _, [] => .gt
  | a :: as, b :: bs =>
    match cmp a b with
    | .eq => cmpLex cmp as bs
    | o => o

/-- Three-way comparison of characters by code point (equals byte order for
ASCII). -/
def cmpChar (a b : Char) : Ordering :=
  cmpNat a.toNat b.toNat

/-- Code-point (byte, on ASCII) three-way comparison of strings. -/
def cmpByte (a b : String) : Ordering :=
  cmpLex cmpChar a.data b.data

/-- Case weight used for the collation tie-break: lowercase (and caseless
characters) before uppercase. -/
def caseWeight (c : Char) : Nat :=
  if c.isUpper then 1 else 0

/-- Primary collation weight of a character: uppercase letters get the weight
of their lowercase counterpart (code point + 32), everything else its own
code point.  Digits therefore sort before letters, as in ASCII. -/
def primChar (c : Char) : Nat :=
  if c.isUpper then c.toNat + 32 else c.toNat

/-- The second comparison decides only when the first is a tie. -/
def cmpThen (o1 o2 : Ordering) : Ordering :=
  match o1 with
  | .eq => o2
  | o => o

/-- Models JS String.prototype.localeCompare under the default (ICU root /
English) collation, restricted to the ASCII alphanumeric keys this code uses:
the primary comparison is case-insensitive (per-character primary weights),
and ties are broken per position with lowercase before uppercase. -/
def localeCompare (a b : String) : Ordering :=
  cmpThen (cmpLex cmpNat (a.data.map primChar) (b.data.map primChar))
    (cmpLex cmpNat (a.data.map caseWeight) (b.data.map caseWeight))

/-- Insert into a list sorted by the boolean relation le. -/
def insertLe {A : Type} (le : A → A → Bool) (a : A) : List A → List A
  | [] => [a]
  | b :: bs => if le a b then a :: b :: bs else b :: insertLe le a bs

/-- Insertion sort by the boolean relation le.  Array.prototype.sort is
implementation-defined but, with a consistent comparator, always yields the
sorted array; with the strict comparators used here the sorted array is
unique, so any sorting function is a faithful model. -/
def sortLe {A : Type} (le : A → A → Bool) : List A → List A
  | [] => []
  | a :: as => insertLe le a (sortLe le as)

/-- One parameter entry of the Record passed to generateCacheKey: the key and
the rendered string value, none standing for undefined. -/
abbrev ParamList := List (String × Option String)

/-- The filter of generateCacheKey: drop entries whose value is undefined or
the empty string. -/
def keptParams (params : ParamList) : ParamList :=
  params.filter (fun p => p.2 != none && p.2 != some "")

/-- The comparator passed to sort in generateCacheKey, ascending by
localeCompare on the keys; an element goes before another when the
comparison is not gt. -/
def keyLe (p q : String × Option String) : Bool :=
  localeCompare p.1 q.1 != .gt

/-- generateCacheKey of src/lib/version_check.ts: filter out undefined/empty
values, sort the remaining entries by localeCompare on the key, render each
as key=value, join with ampersands and prepend the prefix and a dash. -/
def generateCacheKey (pfx : String) (params : ParamList) : String :=
  let filteredParams :=
    String.intercalate "&"
      (((sortLe keyLe (keptParams params))).map
        (fun p => p.1 ++ "=" ++ p.2.getD ""))
  pfx ++ "-" ++ filteredParams

/-- The reference definition of the spec (section 4.1): identical to
generateCacheKey except that the remaining keys are sorted ascending by byte
value.  Declared only to be compared against generateCacheKey. -/
def buildKeySpec (pfx : String) (params : ParamList) : String :=
  let joined :=
    String.intercalate "&"
      ((sortLe (fun p q => cmpByte p.1 q.1 != .gt) (keptParams params)).map
        (fun p => p.1 ++ "=" ++ p.2.getD ""))
  pfx ++ "-" ++ joined

/- ===================== FetchCoordinator (useCachedData) =====================
   Shallow embedding of the hook useCachedData of src/hooks/useDoubanInfo.ts.
   Reactive state and refs become fields of CoordState; the async fetchData
   function is split at its single await into a synchronous dispatch step
   (fetchDataStep, everything up to and including invoking the producer) and
   synchronous completion steps (resolveStep for fulfilment, rejectStep for
   rejection).  dependencies are modelled by their JSON.stringify image, the
   string the code itself compares.  clearOnChange is omitted: its branch
   body in the source is commented out, so the flag has no effect.  The cache
   used is the module-level globalCache, so cache operations are applied with
   globalConfig. -/

/-- The per-render inputs captured by a fetchData closure: cacheKey, the
serialized dependencies, ttl and enableCache. -/
structure FetchParams where
  cacheKey : String
  depsJson : String
  ttl : Nat
  enableCache : Bool
deriving DecidableEq, Repr

/-- The coordinator state: requestIdRef, currentParamsRef, isMountedRef, the
debounce timer handle, and the published React state (data, loading, error,
fromCache) together with the shared globalCache state. -/
structure CoordState (T : Type) where
  requestId : Nat
  currentParams : String
  mounted : Bool
  timer : Option Nat
  data : Option T
  loading : Bool
  error : Option String
  fromCache : Bool
  cache : UnifiedCache T
deriving DecidableEq, Repr

/-- What a dispatched, not yet completed, producer invocation has captured in
its closure: the request id, the params snapshot, and the render's cacheKey,
ttl and enableCache. -/
structure PendingFetch where
  reqId : Nat
  params : String
  cacheKey : String
  ttl : Nat
  enableCache : Bool
deriving DecidableEq, Repr

/-- The hook's initial state: data null, loading true, error null, fromCache
false, requestIdRef 0, currentParamsRef initialized to the serialized
dependencies, mounted. -/
def initCoord {T : Type} (depsJson : String) (cache : UnifiedCache T) :
    CoordState T :=
  { requestId := 0
    currentParams := depsJson
    mounted := true
    timer := none
    data := none
    loading := true
    error := none
    fromCache := false
    cache := cache }

/-- fetchData up to the producer invocation: increment requestIdRef, snapshot
the params, then (unless the cache is bypassed) consult globalCache; on a hit
that passes the just-taken-snapshot and mounted checks, publish the cached
value with fromCache = true and do not invoke the producer (no pending
fetch); otherwise set loading and invoke the producer, returning the pending
record the closure captured. -/
def fetchDataStep {T : Type} (p : FetchParams) (ignoreCache : Bool)
    (now : Nat) (s : CoordState T) : CoordState T × Option PendingFetch :=
  let currentRequestId := s.requestId + 1
  let currentParams := p.depsJson
  let s1 := { s with requestId := currentRequestId, currentParams := currentParams }
  let pf : PendingFetch :=
    { reqId := currentRequestId
      params := currentParams
      cacheKey := p.cacheKey
      ttl := p.ttl
      enableCache := p.enableCache }
  if p.enableCache && !ignoreCache then
    match cacheGet globalConfig s1.cache p.cacheKey now with
    | (some cached, cache1) =>
      if s1.currentParams = currentParams ∧ s1.mounted = true then
        ({ s1 with
            cache := cache1
            data := some cached
            fromCache := true
            loading := false
            error := none }, none)
      else
        ({ s1 with cache := cache1, loading := true }, some pf)
    | (none, cache1) => ({ s1 with cache := cache1, loading := true }, some pf)
  else ({ s1 with loading := true }, some pf)

/-- Producer fulfilment with value v: discard silently if the request id is
stale, the params snapshot is stale or the hook is unmounted; otherwise
publish v with fromCache = false, clear the error, and (when caching is
enabled) write the value to the global cache.  ok1 ok2 are the quota oracle
of the localStorage write. -/
def resolveStep {T : Type} (pf : PendingFetch) (v : T) (now : Nat)
    (ok1 ok2 : Bool) (s : CoordState T) : CoordState T :=
  if pf.reqId ≠ s.requestId then s
  else if pf.params ≠ s.currentParams then s
  else if s.mounted = false then s
  else
    let s1 := { s with
      data := some v
      fromCache := false
      loading := false
      error := none }
    if pf.enableCache then
      { s1 with
        cache := cacheSet globalConfig s1.cache pf.cacheKey v pf.ttl now ok1 ok2 }
    else s1

/-- Producer rejection: e is some message for an Error rejection and none for
a non-Error rejection (surfaced as the fixed fallback message).  The catch
branch checks only the request id and mountedness; on a valid rejection it
publishes the message and stops loading, and touches neither the data nor
the cache. -/
def rejectStep {T : Type} (pf : PendingFetch) (e : Option String)
    (s : CoordState T) : CoordState T :=
  if pf.reqId ≠ s.requestId ∨ s.mounted = false then s
  else { s with error := some (e.getD "未知错误"), loading := false }

/-- The debounce effect body, run on every change of [cacheKey,
...dependencies]: clear any pending timer; if fetchOnMount is false and no
request has ever been dispatched, stop loading and schedule nothing;
otherwise schedule the debounce timer.  requestIdRef and currentParamsRef
are not touched here. -/
def depsChangeStep {T : Type} (fetchOnMount : Bool) (debounceMs : Nat)
    (s : CoordState T) : CoordState T :=
  let s1 := { s with timer := none }
  if fetchOnMount = false ∧ s1.requestId = 0 then { s1 with loading := false }
  else { s1 with timer := some debounceMs }

/-- Unmount cleanup: mark unmounted and clear the timer. -/
def unmountStep {T : Type} (s : CoordState T) : CoordState T :=
  { s with mounted := false, timer := none }

/-- clearCache: delete the key from the global cache; nothing else changes. -/
def clearCacheStep {T : Type} (key : String) (s : CoordState T) : CoordState T :=
  { s with cache := cacheDelete globalConfig s.cache key }

/-- A coordinator state together with the producer invocations that are still
in flight. -/
structure TraceState (T : Type) where
  coord : CoordState T
  pending : List PendingFetch
deriving DecidableEq, Repr

/-- The events a run of the hook can perform: a dependency-change effect, a
fetch dispatch (debounce timer firing, or refresh with ignoreCache), the
completion (in any order) of some in-flight producer, a cache clear, and
unmount. -/
inductive CoordEvent (T : Type) where
  | depsChange (fetchOnMount : Bool) (debounceMs : Nat)
  | dispatch (p : FetchParams) (ignoreCache : Bool) (now : Nat)
  | resolve (i : Nat) (v : T) (now : Nat) (ok1 ok2 : Bool)
  | reject (i : Nat) (e : Option String)
  | clearCache (key : String)
  | unmount
deriving DecidableEq, Repr

/-- Small-step semantics of the coordinator over TraceState. -/
def stepEvent {T : Type} : CoordEvent T → TraceState T → TraceState T
  | .depsChange fm dm, st => { st with coord := depsChangeStep fm dm st.coord }
  | .dispatch p ig now, st =>
    let r := fetchDataStep p ig now { st.coord with timer := none }
    { coord := r.1, pending := st.pending ++ r.2.toList }
  | .resolve i v now ok1 ok2, st =>
    match st.pending[i]? with
    | none => st
    | some pf =>
      { coord := resolveStep pf v now ok1 ok2 st.coord,
        pending := st.pending.eraseIdx i }
  | .reject i e, st =>
    match st.pending[i]? with
    | none => st
    | some pf =>
      { coord := rejectStep pf e st.coord, pending := st.pending.eraseIdx i }
  | .clearCache k, st => { st with coord := clearCacheStep k st.coord }
  | .unmount, st => { st with coord := unmountStep st.coord }

/-- A fresh hook instance: no pending fetches. -/
def initTrace {T : Type} (depsJson : String) (cache : UnifiedCache T) :
    TraceState T :=
  { coord := initCoord depsJson cache, pending := [] }

/-- Run a sequence of events. -/
def runEvents {T : Type} (evs : List (CoordEvent T)) (st : TraceState T) :
    TraceState T :=
  evs.foldl (fun acc e => stepEvent e acc) st

/-- Default pending record used to project the optional component of a
dispatch result. -/
def pendOf {T : Type} (r : CoordState T × Option PendingFetch) : PendingFetch :=
  r.2.getD { reqId := 0, params := "", cacheKey := "", ttl := 0, enableCache := false }

/-- The coordinator invariant: every in-flight fetch carries a request id at
most the current one, and one whose id is current also carries the current
snapshot. -/
def pendingConsistent {T : Type} (st : TraceState T) : Prop :=
  ∀ pf ∈ st.pending,
    pf.reqId ≤ st.coord.requestId ∧
    (pf.reqId = st.coord.requestId → pf.params = st.coord.currentParams)

/- ===================== Association-list lemmas ===================== -/

theorem keyFind_eq_some_mem {V : Type} {l : List (String × V)} {k : String}
    {v : V} (h : keyFind l k = some v) : (k, v) ∈ l := by
  induction l with
  | nil => simp [keyFind] at h
  | cons p t ih =>
    simp only [keyFind] at h
    by_cases hk : p.1 = k
    · simp only [hk, if_true, Option.some.injEq] at h
      subst h
      subst hk
      exact List.mem_cons_self _ _
    · simp only [hk, if_false] at h
      exact List.mem_cons_of_mem _ (ih h)

theorem keyFind_eq_none_iff {V : Type} {l : List (String × V)} {k : String} :
    keyFind l k = none ↔ ∀ p ∈ l, p.1 ≠ k := by
  induction l with
  | nil => simp [keyFind]
  | cons p t ih =>
    simp only [keyFind]
    by_cases hk : p.1 = k
    · simp [hk]
    · simp only [hk, if_false, ih, List.mem_cons]
      constructor
      · rintro h q (rfl | hq)
        · exact hk
        · exact h q hq
      · intro h q hq
        exact h q (Or.inr hq)

theorem keyFind_isSome_exists_mem {V : Type} {l : List (String × V)}
    {k : String} (h : (keyFind l k).isSome) : ∃ v, (k, v) ∈ l := by
  cases hf : keyFind l k with
  | none => rw [hf] at h; simp at h
  | some v => exact ⟨v, keyFind_eq_some_mem hf⟩

theorem mem_mapDelete_iff {V : Type} {l : List (String × V)} {k : String}
    {p : String × V} : p ∈ mapDelete l k ↔ p ∈ l ∧ p.1 ≠ k := by
  unfold mapDelete
  simp [List.mem_filter, bne_iff_ne]

theorem keyFind_mapDelete_self {V : Type} (l : List (String × V))
    (k : String) : keyFind (mapDelete l k) k = none := by
  rw [keyFind_eq_none_iff]
  intro p hp
  exact (mem_mapDelete_iff.mp hp).2

theorem mapSet_absent_append {V : Type} {l : List (String × V)} {k : String}
    (v : V) (h : keyFind l k = none) : mapSet l k v = l ++ [(k, v)] := by
  unfold mapSet
  simp [h]

theorem keyFind_append_left {V : Type} {l m : List (String × V)} {k : String}
    (h : keyFind l k = none) : keyFind (l ++ m) k = keyFind m k := by
  induction l with
  | nil => simp
  | cons p t ih =>
    simp only [keyFind] at h
    by_cases hk : p.1 = k
    · simp [hk] at h
    · simp only [hk, if_false] at h
      rw [List.cons_append]
      simp only [keyFind, hk, if_false]
      exact ih h

theorem keyFind_mapSet_self {V : Type} (l : List (String × V)) (k : String)
    (v : V) : keyFind (mapSet l k v) k = some v := by
  by_cases hs : (keyFind l k).isSome
  · unfold mapSet
    simp only [hs, if_true]
    induction l with
    | nil => simp [keyFind] at hs
    | cons p t ih =>
      simp only [keyFind] at hs
      by_cases hk : p.1 = k
      · simp [keyFind, hk]
      · simp only [hk, if_false] at hs
        simp only [List.map_cons, hk, if_false, keyFind]
        exact ih hs
  · have hn : keyFind l k = none := Option.not_isSome_iff_eq_none.mp hs
    rw [mapSet_absent_append v hn, keyFind_append_left hn]
    simp [keyFind]

theorem mem_mapSet_iff {V : Type} {l : List (String × V)} {k : String}
    {v : V} {p : String × V} :
    p ∈ mapSet l k v ↔ p = (k, v) ∨ (p ∈ l ∧ p.1 ≠ k) := by
  by_cases hs : (keyFind l k).isSome
  · unfold mapSet
    simp only [hs, if_true]
    constructor
    · intro hp
      rcases List.mem_map.mp hp with ⟨q, hq, hqe⟩
      by_cases hqk : q.1 = k
      · left
        simp only [hqk, if_true] at hqe
        exact hqe.symm
      · right
        simp only [hqk, if_false] at hqe
        exact ⟨hqe ▸ hq, hqe ▸ hqk⟩
    · intro hp
      rcases hp with hp | ⟨hpl, hpk⟩
      · rcases keyFind_isSome_exists_mem hs with ⟨v', hv'⟩
        refine List.mem_map.mpr ⟨(k, v'), hv', ?_⟩
        simp [hp]
      · exact List.mem_map.mpr ⟨p, hpl, by simp [hpk]⟩
  · have hn : keyFind l k = none := Option.not_isSome_iff_eq_none.mp hs
    rw [mapSet_absent_append v hn]
    simp only [List.mem_append, List.mem_singleton]
    constructor
    · rintro (hp | hp)
      · exact Or.inr ⟨hp, (keyFind_eq_none_iff.mp hn) p hp⟩
      · exact Or.inl hp
    · rintro (rfl | ⟨hpl, _⟩)
      · exact Or.inr rfl
      · exact Or.inl hpl

theorem mapFst_mapSet_present {V : Type} {l : List (String × V)} {k : String}
    (v : V) (h : (keyFind l k).isSome) :
    (mapSet l k v).map Prod.fst = l.map Prod.fst := by
  unfold mapSet
  simp only [h, if_true, List.map_map]
  refine List.map_congr_left fun p hp => ?_
  by_cases hk : p.1 = k
  · simp [Function.comp, hk]
  · simp [Function.comp, hk]

/- ===================== MemoryCache lemmas ===================== -/

theorem keyFind_memSet_self {T : Type} (maxSize : Nat)
    (store : List (String × CacheEntry T)) (key : String) (d : T)
    (ttlSeconds now : Nat) :
    keyFind (memSet maxSize store key d ttlSeconds now) key =
      some { data := d, timestamp := now, ttl := ttlSeconds } := by
  unfold memSet
  exact keyFind_mapSet_self _ _ _

theorem memSet_below_cap {T : Type} (maxSize : Nat)
    (store : List (String × CacheEntry T)) (key : String) (d : T)
    (ttlSeconds now : Nat) (h : store.length < maxSize) :
    memSet maxSize store key d ttlSeconds now =
      mapSet store key { data := d, timestamp := now, ttl := ttlSeconds } := by
  unfold memSet
  simp [Nat.not_le.mpr h]

theorem memSet_evict_head {T : Type} (maxSize : Nat) (k0 : String)
    (e0 : CacheEntry T) (rest : List (String × CacheEntry T)) (key : String)
    (d : T) (ttlSeconds now : Nat)
    (hlen : ((k0, e0) :: rest).length ≥ maxSize) (hk0 : k0 ≠ "") :
    memSet maxSize ((k0, e0) :: rest) key d ttlSeconds now =
      mapSet rest key { data := d, timestamp := now, ttl := ttlSeconds } := by
  unfold memSet
  have h' : maxSize ≤ rest.length + 1 := by simpa using hlen
  simp [h', hk0]

theorem memGet_live {T : Type} (store : List (String × CacheEntry T))
    (key : String) (now : Nat) (e : CacheEntry T)
    (hf : keyFind store key = some e) (hexp : entryExpired e now = false) :
    memGet store key now = (some e.data, mapDelete store key ++ [(key, e)]) := by
  unfold memGet
  rw [hf]
  simp [hexp, mapSet_absent_append e (keyFind_mapDelete_self store key)]

theorem keyFind_freshMap_none {T : Type} (f : String → CacheEntry T)
    {ks : List String} {k : String} (h : k ∉ ks) :
    keyFind (ks.map (fun k0 => (k0, f k0))) k = none := by
  rw [keyFind_eq_none_iff]
  intro p hp
  rcases List.mem_map.mp hp with ⟨k0, hk0, rfl⟩
  exact fun hc => h (hc ▸ hk0)

theorem memSet_fold_fresh {T : Type} (cap ttlSeconds now : Nat)
    (vals : String → T) :
    ∀ (ks : List String) (st : List (String × CacheEntry T)),
      st.length + ks.length ≤ cap →
      (∀ k ∈ ks, keyFind st k = none) →
      ks.Nodup →
      ks.foldl (fun acc k => memSet cap acc k (vals k) ttlSeconds now) st =
        st ++ ks.map (fun k => (k, { data := vals k, timestamp := now, ttl := ttlSeconds })) := by
  intro ks
  induction ks with
  | nil => intro st _ _ _; simp
  | cons k t ih =>
    intro st hlen hfresh hnd
    rw [List.foldl_cons]
    have hlt : st.length < cap := by
      simp only [List.length_cons] at hlen
      omega
    rw [memSet_below_cap _ _ _ _ _ _ hlt,
      mapSet_absent_append _ (hfresh k (List.mem_cons_self _ _))]
    have hkt : k ∉ t := (List.nodup_cons.mp hnd).1
    have hfresh' : ∀ k' ∈ t,
        keyFind (st ++ [(k, ({ data := vals k, timestamp := now, ttl := ttlSeconds } : CacheEntry T))]) k' = none := by
      intro k' hk'
      rw [keyFind_append_left (hfresh k' (List.mem_cons_of_mem _ hk'))]
      have hne : ¬ (k = k') := fun hc => hkt (hc ▸ hk')
      simp [keyFind, hne]
    rw [ih _ (by
        simp only [List.length_append, List.length_cons, List.length_nil] at hlen ⊢
        omega)
      hfresh' (List.nodup_cons.mp hnd).2]
    simp

/- ===================== LocalStorage lemmas ===================== -/

theorem foldl_mapDelete_eq_filter {V : Type} (ks : List String)
    (l : List (String × V)) :
    ks.foldl (fun acc k => mapDelete acc k) l =
      l.filter (fun p => decide (p.1 ∉ ks)) := by
  induction ks generalizing l with
  | nil => simp
  | cons k t ih =>
    rw [List.foldl_cons, ih]
    unfold mapDelete
    rw [List.filter_filter]
    apply List.filter_congr
    intro p _
    by_cases h1 : p.1 = k <;> by_cases h2 : p.1 ∈ t <;>
      simp [h1, h2, bne]

theorem nodupKeys_val_unique {V : Type} {l : List (String × V)}
    (hnd : (l.map Prod.fst).Nodup) {k : String} {a b : V}
    (ha : (k, a) ∈ l) (hb : (k, b) ∈ l) : a = b := by
  induction l with
  | nil => simp at ha
  | cons p t ih =>
    rw [List.map_cons, List.nodup_cons] at hnd
    rcases List.mem_cons.mp ha with ha' | ha' <;>
      rcases List.mem_cons.mp hb with hb' | hb'
    · rw [← ha'] at hb'
      exact (Prod.mk.injEq _ _ _ _ ▸ hb' : _ ∧ _).2.symm
    · exfalso
      apply hnd.1
      rw [← ha']
      exact List.mem_map.mpr ⟨(k, b), hb', rfl⟩
    · exfalso
      apply hnd.1
      rw [← hb']
      exact List.mem_map.mpr ⟨(k, a), ha', rfl⟩
    · exact ih hnd.2 ha' hb'

theorem mem_lsCleanExpired_iff {T : Type} (pfx : String)
    (items : List (String × Option (CacheEntry T))) (now : Nat)
    (hnd : (items.map Prod.fst).Nodup) (p : String × Option (CacheEntry T)) :
    p ∈ (lsCleanExpired pfx items now).2 ↔
      p ∈ items ∧ ¬ (strStartsWith p.1 pfx = true ∧ lsStale p.2 now = true) := by
  unfold lsCleanExpired
  dsimp only
  rw [foldl_mapDelete_eq_filter]
  simp only [List.mem_filter, decide_eq_true_eq]
  constructor
  · rintro ⟨hmem, hnotin⟩
    refine ⟨hmem, ?_⟩
    rintro ⟨h1, h2⟩
    apply hnotin
    exact List.mem_map.mpr ⟨p, List.mem_filter.mpr ⟨hmem, by simp [h1, h2]⟩, rfl⟩
  · rintro ⟨hmem, hng⟩
    refine ⟨hmem, ?_⟩
    intro hin
    rcases List.mem_map.mp hin with ⟨q, hq, hqk⟩
    rcases List.mem_filter.mp hq with ⟨hqmem, hqg⟩
    have hq2 : q.2 = p.2 := by
      have hp : (p.1, p.2) ∈ items := by simpa using hmem
      have hqm : (p.1, q.2) ∈ items := by
        have : (q.1, q.2) ∈ items := by simpa using hqmem
        rwa [hqk] at this
      exact nodupKeys_val_unique hnd hqm hp
    apply hng
    rw [← hqk, ← hq2]
    simpa using hqg

/- ===================== Claim C7 ===================== -/

/-- C7: when the first durable-tier write attempt fails, the tier runs one
recovery sweep and retries once, and the resulting store is fully
characterized: every entry of the tier's namespace that is expired (or
corrupt) is gone, entries outside the namespace and live namespaced entries
survive, and the written entry is present exactly when the single retry
succeeds; on a second failure the write is silently dropped.  The model
function lsSet is total, witnessing that DurableTier.set never throws. -/
theorem c7_quota_recovery {T : Type} (pfx : String)
    (items : List (String × Option (CacheEntry T))) (key : String) (d : T)
    (ttlSeconds now : Nat) (ok2 : Bool)
    (p : String × Option (CacheEntry T))
    (hnd : (items.map Prod.fst).Nodup) :
    p ∈ lsSet pfx items key d ttlSeconds now false ok2 ↔
      (ok2 = true ∧
        p = (pfx ++ key, some { data := d, timestamp := now, ttl := ttlSeconds })) ∨
      (p ∈ items ∧
        ¬ (strStartsWith p.1 pfx = true ∧ lsStale p.2 now = true) ∧
        (ok2 = true → p.1 ≠ pfx ++ key)) := by
  unfold lsSet
  cases ok2 with
  | false =>
    simp only [Bool.false_eq_true, if_false]
    rw [mem_lsCleanExpired_iff _ _ _ hnd]
    simp
  | true =>
    simp only [Bool.false_eq_true, if_false, if_true]
    rw [mem_mapSet_iff, mem_lsCleanExpired_iff _ _ _ hnd]
    simp only [eq_self_iff_true, true_and, true_implies]
    constructor
    · rintro (rfl | ⟨⟨hmem, hng⟩, hne⟩)
      · exact Or.inl rfl
      · exact Or.inr ⟨hmem, hng, hne⟩
    · rintro (rfl | ⟨hmem, hng, hne⟩)
      · exact Or.inl rfl
      · exact Or.inr ⟨⟨hmem, hng⟩, hne⟩

/-- Witness for c7_quota_recovery at a concrete store: the expired namespaced
entry is indeed absent from the recovered store. -/
theorem c7_quota_recovery_witness :
    ¬ (("deco-cache:old", some ({ data := 1, timestamp := 0, ttl := 1 } : CacheEntry Nat)) ∈
        lsSet "deco-cache:"
          [("deco-cache:old", some { data := 1, timestamp := 0, ttl := 1 }),
            ("deco-cache:live", some { data := 2, timestamp := 0, ttl := 10 }),
            ("foreign", none)]
          "k" 9 60 5000 false true) := by
  rw [c7_quota_recovery _ _ _ _ _ _ _ _ (by decide)]
  decide

/- ===================== Claim C3 ===================== -/

/-- C3 counterexample: with the global configuration (defaultTTL 3600), a
fast-tier miss followed by a durable-tier hit on an entry stored with TTL 50
backfills the fast tier with TTL 3600, not with the durable entry's TTL 50 —
the claim that the backfill uses the same TTL as the stored durable entry is
false at this input. -/
theorem c3_counterexample :
    (cacheGet globalConfig
        ({ mem := [],
           ls := [("deco-cache:k", some { data := 7, timestamp := 0, ttl := 50 })] } :
          UnifiedCache Nat) "k" 1000).1 = some 7 ∧
    entryExpired ({ data := 7, timestamp := 0, ttl := 50 } : CacheEntry Nat) 1000 = false ∧
    (keyFind (cacheGet globalConfig
        ({ mem := [],
           ls := [("deco-cache:k", some { data := 7, timestamp := 0, ttl := 50 })] } :
          UnifiedCache Nat) "k" 1000).2.mem "k").map CacheEntry.ttl = some 3600 ∧
    ¬ ((keyFind (cacheGet globalConfig
        ({ mem := [],
           ls := [("deco-cache:k", some { data := 7, timestamp := 0, ttl := 50 })] } :
          UnifiedCache Nat) "k" 1000).2.mem "k").map CacheEntry.ttl = some 50) := by
  decide

/-- C3 (amended): when TieredCache.get misses in the fast tier and hits in
the durable tier, it writes the retrieved value back into the fast tier
before returning it, but the backfilled entry carries the cache's configured
defaultTTL, not the TTL stored with the durable entry. -/
theorem c3_amended {T : Type} (cfg : CacheConfig) (c : UnifiedCache T)
    (key : String) (now : Nat) (v : T)
    (m' : List (String × CacheEntry T))
    (l' : List (String × Option (CacheEntry T)))
    (hm : cfg.enableMemory = true) (hl : cfg.enableLocalStorage = true)
    (hmiss : memGet c.mem key now = (none, m'))
    (hhit : lsGet cfg.lsNamespace c.ls key now = (some v, l')) :
    cacheGet cfg c key now =
      (some v,
        { mem := memSet cfg.maxMemoryEntries m' key v cfg.defaultTTL now,
          ls := l' }) ∧
    keyFind (cacheGet cfg c key now).2.mem key =
      some { data := v, timestamp := now, ttl := cfg.defaultTTL } := by
  have hmain : cacheGet cfg c key now =
      (some v,
        { mem := memSet cfg.maxMemoryEntries m' key v cfg.defaultTTL now,
          ls := l' }) := by
    unfold cacheGet
    simp [hm, hl, hmiss, hhit]
  refine ⟨hmain, ?_⟩
  rw [hmain]
  exact keyFind_memSet_self _ _ _ _ _ _

/-- Witness for c3_amended at a concrete input. -/
theorem c3_amended_witness :
    cacheGet globalConfig
        ({ mem := [],
           ls := [("deco-cache:k", some { data := 7, timestamp := 0, ttl := 50 })] } :
          UnifiedCache Nat) "k" 1000 =
      (some 7,
        { mem := memSet globalConfig.maxMemoryEntries [] "k" 7 globalConfig.defaultTTL 1000,
          ls := [("deco-cache:k", some { data := 7, timestamp := 0, ttl := 50 })] }) ∧
    keyFind (cacheGet globalConfig
        ({ mem := [],
           ls := [("deco-cache:k", some { data := 7, timestamp := 0, ttl := 50 })] } :
          UnifiedCache Nat) "k" 1000).2.mem "k" =
      some { data := 7, timestamp := 1000, ttl := globalConfig.defaultTTL } :=
  c3_amended globalConfig _ "k" 1000 7 [] _ rfl rfl (by decide) (by decide)

/- ===================== Claim C4 ===================== -/

/-- C4 counterexample: with capacity 3, after inserting the distinct keys a,
b, c, a set of the already-present key b evicts the key a (the oldest entry),
so the tier afterwards has 2 entries and a is gone — refuting that a set of
an already-present key evicts nothing and that eviction happens only when
the key is new. -/
theorem c4_counterexample :
    keyFind
        (memSet 3 (memSet 3 (memSet 3 ([] : List (String × CacheEntry Nat)) "a" 1 60 0)
          "b" 2 60 0) "c" 3 60 0) "a" = some { data := 1, timestamp := 0, ttl := 60 } ∧
    (memGet
        (memSet 3
          (memSet 3 (memSet 3 (memSet 3 ([] : List (String × CacheEntry Nat)) "a" 1 60 0)
            "b" 2 60 0) "c" 3 60 0) "b" 9 60 0) "a" 1).1 = none ∧
    (memSet 3
        (memSet 3 (memSet 3 (memSet 3 ([] : List (String × CacheEntry Nat)) "a" 1 60 0)
          "b" 2 60 0) "c" 3 60 0) "b" 9 60 0).length = 2 := by
  decide

/-- C4 (amended): the fast tier's discipline, as implemented: (1) inserting
capacity+1 distinct non-empty fresh keys into an empty tier evicts exactly
the first-inserted key; (2) a get of a live key marks it most-recently-used
by moving it to the end; (3) a set performed while the tier is at capacity
evicts the oldest (front) entry even when the key being set is already
present (eviction is not limited to new keys); (4) a set of an
already-present key below capacity updates the value in place and does not
refresh the key's recency (the key order is unchanged). -/
theorem c4_amended {T : Type} :
    (∀ (cap ttlSeconds now : Nat) (vals : String → T) (front : List String)
        (klast : String),
       front.length = cap → 1 ≤ cap → (front ++ [klast]).Nodup →
       "" ∉ front →
       (front ++ [klast]).foldl
           (fun acc k => memSet cap acc k (vals k) ttlSeconds now) [] =
         (front.tail ++ [klast]).map
           (fun k => (k, { data := vals k, timestamp := now, ttl := ttlSeconds }))) ∧
    (∀ (store : List (String × CacheEntry T)) (key : String) (now : Nat)
        (e : CacheEntry T),
       keyFind store key = some e → entryExpired e now = false →
       memGet store key now = (some e.data, mapDelete store key ++ [(key, e)])) ∧
    (∀ (cap : Nat) (k0 : String) (e0 : CacheEntry T)
        (rest : List (String × CacheEntry T)) (key : String) (d : T)
        (ttlSeconds now : Nat),
       ((k0, e0) :: rest).length ≥ cap → k0 ≠ "" → key ≠ k0 →
       keyFind rest k0 = none →
       keyFind (memSet cap ((k0, e0) :: rest) key d ttlSeconds now) k0 = none) ∧
    (∀ (cap : Nat) (store : List (String × CacheEntry T)) (key : String)
        (d : T) (ttlSeconds now : Nat),
       store.length < cap → (keyFind store key).isSome →
       (memSet cap store key d ttlSeconds now).map Prod.fst =
         store.map Prod.fst) := by
  refine ⟨?_, ?_, ?_, ?_⟩
  · intro cap ttlSeconds now vals front klast hlen hcap hnd hns
    rw [List.foldl_append]
    rw [memSet_fold_fresh cap ttlSeconds now vals front [] (by simp [hlen])
      (fun k _ => rfl) ((List.nodup_append.mp hnd).1)]
    simp only [List.nil_append, List.foldl_cons, List.foldl_nil]
    rcases front with _ | ⟨f0, frest⟩
    · simp at hlen; omega
    · have hf0 : f0 ≠ "" := fun hc => hns (hc ▸ List.mem_cons_self _ _)
      rw [List.map_cons]
      have hlen3 : ((f0, ({ data := vals f0, timestamp := now, ttl := ttlSeconds } : CacheEntry T)) ::
          frest.map (fun k => (k, ({ data := vals k, timestamp := now, ttl := ttlSeconds } : CacheEntry T)))).length ≥ cap := by
        simp only [List.length_cons, List.length_map]
        simp only [List.length_cons] at hlen
        omega
      rw [memSet_evict_head cap f0 _ _ _ _ _ _ hlen3 hf0]
      have hklast : klast ∉ frest := by
        have hdisj := (List.nodup_append.mp hnd).2.2
        intro hc
        exact hdisj (List.mem_cons_of_mem _ hc) (List.mem_singleton.mpr rfl)
      rw [mapSet_absent_append _ (keyFind_freshMap_none _ hklast)]
      simp
  · intro store key now e hf hexp
    exact memGet_live store key now e hf hexp
  · intro cap k0 e0 rest key d ttlSeconds now hlen hk0 hkey hrest
    rw [memSet_evict_head cap k0 e0 rest key d ttlSeconds now hlen hk0]
    rw [keyFind_eq_none_iff]
    intro p hp
    rcases mem_mapSet_iff.mp hp with rfl | ⟨hpl, _⟩
    · exact hkey
    · exact (keyFind_eq_none_iff.mp hrest) p hpl
  · intro cap store key d ttlSeconds now hlt hsome
    rw [memSet_below_cap _ _ _ _ _ _ hlt]
    exact mapFst_mapSet_present _ hsome

/-- Witness for c4_amended: each conjunct applied at a concrete input. -/
theorem c4_amended_witness :
    (["a", "b", "c"].foldl
        (fun acc k => memSet 2 acc k (String.length k) 60 5) ([] : List (String × CacheEntry Nat)) =
      (["b", "c"]).map (fun k => (k, { data := String.length k, timestamp := 5, ttl := 60 }))) ∧
    (memGet [("a", ({ data := 1, timestamp := 0, ttl := 60 } : CacheEntry Nat)),
        ("b", { data := 2, timestamp := 0, ttl := 60 })] "a" 1 =
      (some 1, [("b", { data := 2, timestamp := 0, ttl := 60 }),
        ("a", { data := 1, timestamp := 0, ttl := 60 })])) ∧
    (keyFind (memSet 2 [("a", ({ data := 1, timestamp := 0, ttl := 60 } : CacheEntry Nat)),
        ("b", { data := 2, timestamp := 0, ttl := 60 })] "b" 9 60 5) "a" = none) ∧
    ((memSet 3 [("a", ({ data := 1, timestamp := 0, ttl := 60 } : CacheEntry Nat)),
        ("b", { data := 2, timestamp := 0, ttl := 60 })] "a" 9 60 5).map Prod.fst =
      ["a", "b"]) := by
  refine ⟨?_, ?_, ?_, ?_⟩
  · exact (c4_amended (T := Nat)).1 2 60 5 String.length ["a", "b"] "c" (by decide)
      (by decide) (by decide) (by decide)
  · exact (c4_amended (T := Nat)).2.1
      [("a", { data := 1, timestamp := 0, ttl := 60 }),
        ("b", { data := 2, timestamp := 0, ttl := 60 })]
      "a" 1 { data := 1, timestamp := 0, ttl := 60 } (by decide) (by decide)
  · exact (c4_amended (T := Nat)).2.2.1 2 "a" { data := 1, timestamp := 0, ttl := 60 }
      [("b", { data := 2, timestamp := 0, ttl := 60 })] "b" 9 60 5 (by decide) (by decide)
      (by decide) (by decide)
  · have h := (c4_amended (T := Nat)).2.2.2 3
      [("a", { data := 1, timestamp := 0, ttl := 60 }),
        ("b", { data := 2, timestamp := 0, ttl := 60 })] "a" 9 60 5
      (by decide) (by decide)
    rw [h]
    decide

/- ===================== Comparator theory ===================== -/

/-- A well-behaved three-way comparator: antisymmetric under swap, with
transitive strict ordering and substitutive ties. -/
structure IsCmp {A : Type} (c : A → A → Ordering) : Prop where
  swapEq : ∀ a b, c b a = (c a b).swap
  lt_trans : ∀ a b x, c a b = .lt → c b x = .lt → c a x = .lt
  eq_left : ∀ a b x, c a b = .eq → c a x = c b x

theorem IsCmp.eq_right {A : Type} {c : A → A → Ordering} (h : IsCmp c)
    {a b : A} (hab : c a b = .eq) (x : A) : c x a = c x b := by
  rw [h.swapEq a x, h.swapEq b x, h.eq_left a b x hab]

theorem IsCmp.le_trans {A : Type} {c : A → A → Ordering} (h : IsCmp c)
    {a b x : A} (h1 : c a b ≠ .gt) (h2 : c b x ≠ .gt) : c a x ≠ .gt := by
  cases hab : c a b with
  | gt => exact absurd hab h1
  | eq => rw [h.eq_left a b x hab]; exact h2
  | lt =>
    cases hbx : c b x with
    | gt => exact absurd hbx h2
    | eq => rw [← h.eq_right hbx a, hab]; simp
    | lt => rw [h.lt_trans a b x hab hbx]; simp

theorem cmpNat_lt_iff {a b : Nat} : cmpNat a b = .lt ↔ a < b := by
  unfold cmpNat
  by_cases h1 : a < b
  · simp [h1]
  · simp only [h1, if_false]
    by_cases h2 : a = b
    · simp [h2]
    · simp [h2]

theorem cmpNat_eq_iff {a b : Nat} : cmpNat a b = .eq ↔ a = b := by
  unfold cmpNat
  by_cases h1 : a < b
  · simp only [h1, if_true]
    constructor
    · intro h; cases h
    · intro h; omega
  · simp only [h1, if_false]
    by_cases h2 : a = b
    · simp [h2]
    · simp [h2]

theorem cmpNat_gt_iff {a b : Nat} : cmpNat a b = .gt ↔ b < a := by
  unfold cmpNat
  by_cases h1 : a < b
  · simp only [h1, if_true]
    constructor
    · intro h; cases h
    · intro h; omega
  · simp only [h1, if_false]
    by_cases h2 : a = b
    · simp only [h2, if_true]
      constructor
      · intro h; cases h
      · intro h; omega
    · simp only [h2, if_false, true_iff]
      omega

theorem cmpNat_isCmp : IsCmp cmpNat := by
  constructor
  · intro a b
    rcases Nat.lt_trichotomy a b with h | h | h
    · rw [cmpNat_lt_iff.mpr h, cmpNat_gt_iff.mpr h]
      rfl
    · rw [cmpNat_eq_iff.mpr h, cmpNat_eq_iff.mpr h.symm]
      rfl
    · rw [cmpNat_gt_iff.mpr h, cmpNat_lt_iff.mpr h]
      rfl
  · intro a b x h1 h2
    exact cmpNat_lt_iff.mpr (Nat.lt_trans (cmpNat_lt_iff.mp h1) (cmpNat_lt_iff.mp h2))
  · intro a b x h
    rw [cmpNat_eq_iff.mp h]

theorem cmpLex_isCmp {A : Type} {c : A → A → Ordering} (hc : IsCmp c) :
    IsCmp (cmpLex c) := by
  constructor
  · intro l1 l2
    induction l1 generalizing l2 with
    | nil => cases l2 <;> rfl
    | cons a as ih =>
      cases l2 with
      | nil => rfl
      | cons b bs =>
        simp only [cmpLex]
        have h2 : c b a = (c a b).swap := hc.swapEq a b
        cases h : c a b with
        | lt =>
          have h3 : c b a = .gt := by rw [h2, h]; rfl
          rw [h3]
          rfl
        | eq =>
          have h3 : c b a = .eq := by rw [h2, h]; rfl
          rw [h3]
          exact ih bs
        | gt =>
          have h3 : c b a = .lt := by rw [h2, h]; rfl
          rw [h3]
          rfl
  · intro l1 l2 l3
    induction l1 generalizing l2 l3 with
    | nil =>
      intro h1 h2
      cases l2 with
      | nil => exact h2
      | cons b bs =>
        cases l3 with
        | nil => simp [cmpLex] at h2
        | cons x xs => rfl
    | cons a as ih =>
      intro h1 h2
      cases l2 with
      | nil => simp [cmpLex] at h1
      | cons b bs =>
        cases l3 with
        | nil => simp [cmpLex] at h2
        | cons x xs =>
          simp only [cmpLex] at h1 h2 ⊢
          cases hab : c a b with
          | gt => rw [hab] at h1; simp at h1
          | lt =>
            rw [hab] at h1
            cases hbx : c b x with
            | gt => rw [hbx] at h2; simp at h2
            | lt => rw [hc.lt_trans a b x hab hbx]
            | eq => rw [← hc.eq_right hbx a, hab]
          | eq =>
            rw [hab] at h1
            cases hbx : c b x with
            | gt => rw [hbx] at h2; simp at h2
            | lt => rw [hc.eq_left a b x hab, hbx]
            | eq =>
              rw [hbx] at h2
              rw [hc.eq_left a b x hab, hbx]
              exact ih bs xs h1 h2
  · intro l1 l2 l3 h
    induction l1 generalizing l2 l3 with
    | nil =>
      cases l2 with
      | nil => rfl
      | cons b bs => simp [cmpLex] at h
    | cons a as ih =>
      cases l2 with
      | nil => simp [cmpLex] at h
      | cons b bs =>
        simp only [cmpLex] at h
        cases hab : c a b with
        | lt => rw [hab] at h; simp at h
        | gt => rw [hab] at h; simp at h
        | eq =>
          rw [hab] at h
          cases l3 with
          | nil => rfl
          | cons x xs =>
            simp only [cmpLex]
            rw [hc.eq_left a b x hab]
            cases hbx : c b x with
            | lt => rfl
            | gt => rfl
            | eq => rw [ih bs xs h]

theorem cmpThen_isCmp {A : Type} {c1 c2 : A → A → Ordering} (h1 : IsCmp c1)
    (h2 : IsCmp c2) : IsCmp (fun a b => cmpThen (c1 a b) (c2 a b)) := by
  constructor
  · intro a b
    simp only [cmpThen]
    rw [h1.swapEq a b, h2.swapEq a b]
    cases c1 a b <;> cases c2 a b <;> rfl
  · intro a b x ha hb
    simp only [cmpThen] at ha hb ⊢
    cases hab : c1 a b with
    | gt => rw [hab] at ha; simp at ha
    | lt =>
      rw [hab] at ha
      cases hbx : c1 b x with
      | gt => rw [hbx] at hb; simp at hb
      | lt => rw [h1.lt_trans a b x hab hbx]
      | eq => rw [← h1.eq_right hbx a, hab]
    | eq =>
      rw [hab] at ha
      cases hbx : c1 b x with
      | gt => rw [hbx] at hb; simp at hb
      | lt => rw [h1.eq_left a b x hab, hbx]
      | eq =>
        rw [hbx] at hb
        rw [h1.eq_left a b x hab, hbx]
        exact h2.lt_trans a b x ha hb
  · intro a b x h
    simp only [cmpThen] at h ⊢
    cases hab : c1 a b with
    | lt => rw [hab] at h; simp at h
    | gt => rw [hab] at h; simp at h
    | eq =>
      rw [hab] at h
      rw [h1.eq_left a b x hab]
      cases hbx : c1 b x with
      | lt => rfl
      | gt => rfl
      | eq => rw [h2.eq_left a b x h]

theorem isCmp_comap {A B : Type} {c : B → B → Ordering} (h : IsCmp c)
    (g : A → B) : IsCmp (fun x y => c (g x) (g y)) := by
  constructor
  · intro a b; exact h.swapEq (g a) (g b)
  · intro a b x; exact h.lt_trans (g a) (g b) (g x)
  · intro a b x; exact h.eq_left (g a) (g b) (g x)

theorem localeCompare_isCmp : IsCmp localeCompare :=
  cmpThen_isCmp
    (isCmp_comap (cmpLex_isCmp cmpNat_isCmp) (fun s => s.data.map primChar))
    (isCmp_comap (cmpLex_isCmp cmpNat_isCmp) (fun s => s.data.map caseWeight))

theorem cmpByte_isCmp : IsCmp cmpByte := by
  have h : IsCmp (cmpLex cmpChar) := by
    have : IsCmp cmpChar := isCmp_comap cmpNat_isCmp Char.toNat
    exact cmpLex_isCmp this
  constructor
  · intro a b; exact h.swapEq a.data b.data
  · intro a b x; exact h.lt_trans a.data b.data x.data
  · intro a b x; exact h.eq_left a.data b.data x.data

theorem cmpLex_eq_of_strict {A : Type} {c : A → A → Ordering}
    (hstrict : ∀ a b : A, c a b = .eq → a = b) :
    ∀ {l1 l2 : List A}, cmpLex c l1 l2 = .eq → l1 = l2 := by
  intro l1
  induction l1 with
  | nil =>
    intro l2 h
    cases l2 with
    | nil => rfl
    | cons b bs => simp [cmpLex] at h
  | cons a as ih =>
    intro l2 h
    cases l2 with
    | nil => simp [cmpLex] at h
    | cons b bs =>
      simp only [cmpLex] at h
      cases hab : c a b with
      | lt => rw [hab] at h; simp at h
      | gt => rw [hab] at h; simp at h
      | eq =>
        rw [hab] at h
        rw [hstrict a b hab, ih h]

theorem char_toNat_inj {a b : Char} (h : a.toNat = b.toNat) : a = b :=
  Char.ext (UInt32.ext h)

theorem primChar_caseWeight_inj {c1 c2 : Char} (h1 : primChar c1 = primChar c2)
    (h2 : caseWeight c1 = caseWeight c2) : c1 = c2 := by
  unfold primChar at h1
  unfold caseWeight at h2
  by_cases hu1 : c1.isUpper <;> by_cases hu2 : c2.isUpper <;>
    simp only [hu1, hu2, if_true, if_false] at h1 h2
  · exact char_toNat_inj (by omega)
  · simp at h2
  · simp at h2
  · exact char_toNat_inj h1

theorem map_pair_inj {A B C : Type} (f : A → B) (g : A → C)
    (hinj : ∀ x y, f x = f y → g x = g y → x = y) :
    ∀ {l1 l2 : List A}, l1.map f = l2.map f → l1.map g = l2.map g → l1 = l2 := by
  intro l1
  induction l1 with
  | nil =>
    intro l2 hf _
    cases l2 with
    | nil => rfl
    | cons b bs => simp at hf
  | cons a as ih =>
    intro l2 hf hg
    cases l2 with
    | nil => simp at hf
    | cons b bs =>
      simp only [List.map_cons, List.cons.injEq] at hf hg
      rw [hinj a b hf.1 hg.1, ih hf.2 hg.2]

theorem localeCompare_eq_strings_eq {a b : String}
    (h : localeCompare a b = .eq) : a = b := by
  unfold localeCompare cmpThen at h
  cases hp : cmpLex cmpNat (a.data.map primChar) (b.data.map primChar) with
  | lt => rw [hp] at h; simp at h
  | gt => rw [hp] at h; simp at h
  | eq =>
    rw [hp] at h
    have e1 := cmpLex_eq_of_strict (fun x y hxy => cmpNat_eq_iff.mp hxy) hp
    have e2 := cmpLex_eq_of_strict (fun x y hxy => cmpNat_eq_iff.mp hxy) h
    exact String.ext (map_pair_inj primChar caseWeight
      (fun x y => primChar_caseWeight_inj) e1 e2)

/- ===================== Insertion-sort lemmas ===================== -/

theorem insertLe_perm {A : Type} (le : A → A → Bool) (a : A) (l : List A) :
    (insertLe le a l).Perm (a :: l) := by
  induction l with
  | nil => exact List.Perm.refl _
  | cons b t ih =>
    unfold insertLe
    by_cases h : le a b = true
    · simp only [h, if_true]
      exact List.Perm.refl _
    · simp only [h, if_false]
      exact (List.Perm.cons b ih).trans (List.Perm.swap a b t)

theorem sortLe_perm {A : Type} (le : A → A → Bool) (l : List A) :
    (sortLe le l).Perm l := by
  induction l with
  | nil => exact List.Perm.refl _
  | cons a t ih =>
    unfold sortLe
    exact (insertLe_perm le a (sortLe le t)).trans (List.Perm.cons a ih)

theorem insertLe_pairwise {A : Type} {le : A → A → Bool}
    (htrans : ∀ a b x, le a b = true → le b x = true → le a x = true)
    (htot : ∀ a b, le a b = true ∨ le b a = true) (a : A) (l : List A)
    (h : l.Pairwise (fun x y => le x y = true)) :
    (insertLe le a l).Pairwise (fun x y => le x y = true) := by
  induction l with
  | nil => simp [insertLe]
  | cons b t ih =>
    unfold insertLe
    rcases List.pairwise_cons.mp h with ⟨hb, ht⟩
    by_cases hab : le a b = true
    · simp only [hab, if_true]
      apply List.pairwise_cons.mpr
      refine ⟨?_, h⟩
      intro x hx
      rcases List.mem_cons.mp hx with rfl | hxt
      · exact hab
      · exact htrans a b x hab (hb x hxt)
    · simp only [hab, if_false]
      have hba : le b a = true := (htot a b).resolve_left hab
      apply List.pairwise_cons.mpr
      refine ⟨?_, ih ht⟩
      intro x hx
      rcases List.mem_cons.mp ((insertLe_perm le a t).mem_iff.mp hx) with rfl | hxt
      · exact hba
      · exact hb x hxt

theorem sortLe_pairwise {A : Type} {le : A → A → Bool}
    (htrans : ∀ a b x, le a b = true → le b x = true → le a x = true)
    (htot : ∀ a b, le a b = true ∨ le b a = true) (l : List A) :
    (sortLe le l).Pairwise (fun x y => le x y = true) := by
  induction l with
  | nil => simp [sortLe]
  | cons a t ih =>
    unfold sortLe
    exact insertLe_pairwise htrans htot a _ ih

theorem insertLe_congr {A : Type} {le1 le2 : A → A → Bool} (a : A) :
    ∀ l : List A, (∀ b ∈ l, le1 a b = le2 a b) →
      insertLe le1 a l = insertLe le2 a l := by
  intro l
  induction l with
  | nil => intro _; rfl
  | cons b t ih =>
    intro h
    unfold insertLe
    rw [h b (List.mem_cons_self _ _)]
    by_cases hb : le2 a b = true
    · simp [hb]
    · simp only [hb, if_false]
      rw [ih (fun x hx => h x (List.mem_cons_of_mem _ hx))]

theorem sortLe_congr {A : Type} {le1 le2 : A → A → Bool} :
    ∀ l : List A, (∀ a ∈ l, ∀ b ∈ l, le1 a b = le2 a b) →
      sortLe le1 l = sortLe le2 l := by
  intro l
  induction l with
  | nil => intro _; rfl
  | cons a t ih =>
    intro h
    unfold sortLe
    rw [ih (fun x hx y hy =>
      h x (List.mem_cons_of_mem _ hx) y (List.mem_cons_of_mem _ hy))]
    apply insertLe_congr
    intro b hb
    have hbt : b ∈ t := (sortLe_perm le2 t).mem_iff.mp hb
    exact h a (List.mem_cons_self _ _) b (List.mem_cons_of_mem _ hbt)

theorem sorted_perm_nodupKeys_eq {A : Type} (keyOf : A → String)
    {le : A → A → Bool}
    (hanti : ∀ p q, le p q = true → le q p = true → keyOf p = keyOf q) :
    ∀ (l1 l2 : List A), l1.Perm l2 →
      l1.Pairwise (fun x y => le x y = true) →
      l2.Pairwise (fun x y => le x y = true) →
      (l1.map keyOf).Nodup → l1 = l2 := by
  intro l1
  induction l1 with
  | nil =>
    intro l2 hperm _ _ _
    exact (hperm.symm.eq_nil).symm ▸ rfl
  | cons a t1 ih =>
    intro l2 hperm hp1 hp2 hnd
    cases l2 with
    | nil =>
      have := hperm.length_eq
      simp at this
    | cons b t2 =>
      by_cases hab : a = b
      · subst hab
        have hperm' : t1.Perm t2 := hperm.cons_inv
        have e := ih t2 hperm' (List.pairwise_cons.mp hp1).2
          (List.pairwise_cons.mp hp2).2
          (by
            rw [List.map_cons, List.nodup_cons] at hnd
            exact hnd.2)
        rw [e]
      · exfalso
        have hbl1 : b ∈ a :: t1 := hperm.symm.subset (List.mem_cons_self _ _)
        have hal2 : a ∈ b :: t2 := hperm.subset (List.mem_cons_self _ _)
        have hbt1 : b ∈ t1 := by
          rcases List.mem_cons.mp hbl1 with h | h
          · exact absurd h.symm hab
          · exact h
        have hat2 : a ∈ t2 := by
          rcases List.mem_cons.mp hal2 with h | h
          · exact absurd h hab
          · exact h
        have h1 : le a b = true := (List.pairwise_cons.mp hp1).1 b hbt1
        have h2 : le b a = true := (List.pairwise_cons.mp hp2).1 a hat2
        have hk : keyOf a = keyOf b := hanti a b h1 h2
        rw [List.map_cons, List.nodup_cons] at hnd
        exact hnd.1 (List.mem_map.mpr ⟨b, hbt1, hk.symm⟩)

/- ===================== keyLe properties ===================== -/

theorem keyLe_iff {p q : String × Option String} :
    keyLe p q = true ↔ localeCompare p.1 q.1 ≠ .gt := by
  unfold keyLe
  cases h : localeCompare p.1 q.1 <;> simp <;> decide

theorem keyLe_trans : ∀ p q r : String × Option String,
    keyLe p q = true → keyLe q r = true → keyLe p r = true := by
  intro p q r h1 h2
  rw [keyLe_iff] at h1 h2 ⊢
  exact localeCompare_isCmp.le_trans h1 h2

theorem keyLe_total : ∀ p q : String × Option String,
    keyLe p q = true ∨ keyLe q p = true := by
  intro p q
  rw [keyLe_iff, keyLe_iff]
  cases h : localeCompare p.1 q.1 with
  | lt => left; simp
  | eq => left; simp
  | gt =>
    right
    have h2 : localeCompare q.1 p.1 = (localeCompare p.1 q.1).swap :=
      localeCompare_isCmp.swapEq p.1 q.1
    rw [h] at h2
    rw [h2]
    simp [Ordering.swap]

theorem keyLe_anti : ∀ p q : String × Option String,
    keyLe p q = true → keyLe q p = true → p.1 = q.1 := by
  intro p q h1 h2
  rw [keyLe_iff] at h1 h2
  cases h : localeCompare p.1 q.1 with
  | eq => exact localeCompare_eq_strings_eq h
  | gt => exact absurd h h1
  | lt =>
    exfalso
    apply h2
    have hs : localeCompare q.1 p.1 = (localeCompare p.1 q.1).swap :=
      localeCompare_isCmp.swapEq p.1 q.1
    rw [h] at hs
    exact hs

/- ===================== Claim C6 ===================== -/

/-- C6: key determinism — for any prefix and any two parameter maps (records,
hence with duplicate-free key sets) that agree as sets after dropping
undefined and empty-string values, generateCacheKey produces the same key,
independently of insertion order and of explicitly-undefined keys. -/
theorem c6_key_determinism (pfx : String) (P1 P2 : ParamList)
    (h1 : (P1.map Prod.fst).Nodup) (h2 : (P2.map Prod.fst).Nodup)
    (hset : ∀ kv, kv ∈ keptParams P1 ↔ kv ∈ keptParams P2) :
    generateCacheKey pfx P1 = generateCacheKey pfx P2 := by
  have hnd1 : (keptParams P1).Nodup :=
    (List.Nodup.of_map Prod.fst h1).filter _
  have hnd2 : (keptParams P2).Nodup :=
    (List.Nodup.of_map Prod.fst h2).filter _
  have hperm : (keptParams P1).Perm (keptParams P2) :=
    (List.perm_ext_iff_of_nodup hnd1 hnd2).mpr hset
  have hkeys1 : ((keptParams P1).map Prod.fst).Nodup := by
    have hsub : (keptParams P1).Sublist P1 := List.filter_sublist P1
    exact h1.sublist (hsub.map Prod.fst)
  have hsorted :
      sortLe keyLe (keptParams P1) = sortLe keyLe (keptParams P2) := by
    apply sorted_perm_nodupKeys_eq Prod.fst keyLe_anti
    · exact ((sortLe_perm keyLe _).trans hperm).trans (sortLe_perm keyLe _).symm
    · exact sortLe_pairwise keyLe_trans keyLe_total _
    · exact sortLe_pairwise keyLe_trans keyLe_total _
    · exact hkeys1.perm ((sortLe_perm keyLe _).map Prod.fst).symm
  unfold generateCacheKey
  rw [hsorted]

/-- Witness for c6_key_determinism: two concrete maps that differ in
insertion order, in an explicitly-undefined key and in an empty-valued key
yield the same cache key. -/
theorem c6_key_determinism_witness :
    generateCacheKey "p" [("b", some "2"), ("a", some "1"), ("c", none)] =
      generateCacheKey "p" [("a", some "1"), ("z", some ""), ("b", some "2")] := by
  apply c6_key_determinism "p" _ _ (by decide) (by decide)
  intro kv
  have e1 : keptParams [("b", some "2"), ("a", some "1"), ("c", none)] =
      [("b", some "2"), ("a", some "1")] := by decide
  have e2 : keptParams [("a", some "1"), ("z", some ""), ("b", some "2")] =
      [("a", some "1"), ("b", some "2")] := by decide
  rw [e1, e2]
  simp only [List.mem_cons, List.not_mem_nil, or_false]
  tauto

/- ===================== Claim C5 ===================== -/

theorem cmpLex_self (l : List Nat) : cmpLex cmpNat l l = .eq := by
  induction l with
  | nil => rfl
  | cons a t ih =>
    simp only [cmpLex]
    rw [cmpNat_eq_iff.mpr rfl, ih]

theorem cmpLex_map {A B : Type} (c : B → B → Ordering) (g : A → B) :
    ∀ (l1 l2 : List A),
      cmpLex c (l1.map g) (l2.map g) = cmpLex (fun x y => c (g x) (g y)) l1 l2 := by
  intro l1
  induction l1 with
  | nil => intro l2; cases l2 <;> rfl
  | cons a as ih =>
    intro l2
    cases l2 with
    | nil => rfl
    | cons b bs =>
      simp only [List.map_cons, cmpLex]
      cases c (g a) (g b) <;> simp [ih bs]

theorem cmpByte_eq_strings_eq {a b : String} (h : cmpByte a b = .eq) :
    a = b := by
  unfold cmpByte at h
  refine String.ext (cmpLex_eq_of_strict ?_ h)
  intro x y hxy
  exact char_toNat_inj (cmpNat_eq_iff.mp hxy)

theorem localeCompare_eq_cmpByte_of_noUpper {a b : String}
    (ha : ∀ ch ∈ a.data, ch.isUpper = false)
    (hb : ∀ ch ∈ b.data, ch.isUpper = false) :
    localeCompare a b = cmpByte a b := by
  have hpa : a.data.map primChar = a.data.map Char.toNat :=
    List.map_congr_left fun c hc => by simp [primChar, ha c hc]
  have hpb : b.data.map primChar = b.data.map Char.toNat :=
    List.map_congr_left fun c hc => by simp [primChar, hb c hc]
  have hmap : cmpLex cmpNat (a.data.map Char.toNat) (b.data.map Char.toNat) =
      cmpByte a b := by
    rw [cmpLex_map]
    rfl
  unfold localeCompare
  rw [hpa, hpb, hmap]
  cases h : cmpByte a b with
  | lt => rfl
  | gt => rfl
  | eq =>
    have hab : a = b := cmpByte_eq_strings_eq h
    subst hab
    show cmpThen Ordering.eq
      (cmpLex cmpNat (a.data.map caseWeight) (a.data.map caseWeight)) = .eq
    rw [cmpLex_self]
    rfl

/-- C5 counterexample: on the map with keys B and a, the implementation sorts
a before B (locale comparison), while the reference definition of the claim
sorts by byte value and puts B first; the two outputs differ, so
generateCacheKey does not equal the byte-order reference definition. -/
theorem c5_counterexample :
    generateCacheKey "p" [("B", some "2"), ("a", some "1")] = "p-a=1&B=2" ∧
    buildKeySpec "p" [("B", some "2"), ("a", some "1")] = "p-B=2&a=1" ∧
    generateCacheKey "p" [("B", some "2"), ("a", some "1")] ≠
      buildKeySpec "p" [("B", some "2"), ("a", some "1")] := by
  decide

/-- C5 (amended): generateCacheKey filters out undefined and empty values,
sorts the remaining entries ascending by the locale-aware comparison
localeCompare (case-insensitive primary weights with a lowercase-first
tie-break) — not by byte value — joins them as key=value pairs with
ampersands and prepends the prefix and a dash.  On keys containing no
uppercase characters the locale order coincides with byte order, so the
byte-order reference definition is recovered; absent params still produce
exactly prefix ++ "-". -/
theorem c5_amended (pfx : String) (params : ParamList)
    (hlow : ∀ p ∈ params, ∀ ch ∈ p.1.data, ch.isUpper = false) :
    generateCacheKey pfx params = buildKeySpec pfx params ∧
    generateCacheKey pfx [] = pfx ++ "-" := by
  constructor
  · unfold generateCacheKey buildKeySpec
    have hs : sortLe keyLe (keptParams params) =
        sortLe (fun p q => cmpByte p.1 q.1 != .gt) (keptParams params) := by
      apply sortLe_congr
      intro p hp q hq
      unfold keyLe
      rw [localeCompare_eq_cmpByte_of_noUpper
        (hlow p (List.mem_of_mem_filter hp))
        (hlow q (List.mem_of_mem_filter hq))]
    rw [hs]
  · show pfx ++ "-" ++
      String.intercalate "&"
        ((sortLe keyLe (keptParams [])).map (fun p => p.1 ++ "=" ++ p.2.getD "")) =
      pfx ++ "-"
    have h0 : keptParams [] = [] := rfl
    rw [h0]
    show pfx ++ "-" ++ String.intercalate "&" [] = pfx ++ "-"
    have h1 : String.intercalate "&" [] = "" := rfl
    rw [h1]
    simp

/-- Witness for c5_amended on lowercase keys. -/
theorem c5_amended_witness :
    generateCacheKey "p" [("b", some "2"), ("a", some "1")] =
      buildKeySpec "p" [("b", some "2"), ("a", some "1")] ∧
    generateCacheKey "p" [] = "p" ++ "-" :=
  c5_amended "p" [("b", some "2"), ("a", some "1")] (by decide)

/- ===================== Coordinator lemmas ===================== -/

theorem fetchDataStep_spec {T : Type} (p : FetchParams) (ig : Bool) (now : Nat)
    (s : CoordState T) :
    (fetchDataStep p ig now s).1.requestId = s.requestId + 1 ∧
    (fetchDataStep p ig now s).1.currentParams = p.depsJson ∧
    (fetchDataStep p ig now s).1.mounted = s.mounted ∧
    ∀ pf, (fetchDataStep p ig now s).2 = some pf →
      pf.reqId = s.requestId + 1 ∧ pf.params = p.depsJson ∧
      pf.cacheKey = p.cacheKey ∧ pf.ttl = p.ttl ∧
      pf.enableCache = p.enableCache := by
  unfold fetchDataStep
  dsimp only
  split
  · split
    · split
      · exact ⟨rfl, rfl, rfl, fun pf h => Option.noConfusion h⟩
      · refine ⟨rfl, rfl, rfl, fun pf h => ?_⟩
        injection h with h2
        subst h2
        exact ⟨rfl, rfl, rfl, rfl, rfl⟩
    · refine ⟨rfl, rfl, rfl, fun pf h => ?_⟩
      injection h with h2
      subst h2
      exact ⟨rfl, rfl, rfl, rfl, rfl⟩
  · refine ⟨rfl, rfl, rfl, fun pf h => ?_⟩
    injection h with h2
    subst h2
    exact ⟨rfl, rfl, rfl, rfl, rfl⟩

theorem resolveStep_stale {T : Type} (pf : PendingFetch) (v : T) (now : Nat)
    (ok1 ok2 : Bool) (s : CoordState T) (h : pf.reqId ≠ s.requestId) :
    resolveStep pf v now ok1 ok2 s = s := by
  unfold resolveStep
  rw [if_pos h]

theorem resolveStep_preserves {T : Type} (pf : PendingFetch) (v : T)
    (now : Nat) (ok1 ok2 : Bool) (s : CoordState T) :
    (resolveStep pf v now ok1 ok2 s).requestId = s.requestId ∧
    (resolveStep pf v now ok1 ok2 s).currentParams = s.currentParams ∧
    (resolveStep pf v now ok1 ok2 s).mounted = s.mounted := by
  unfold resolveStep
  split
  · exact ⟨rfl, rfl, rfl⟩
  · split
    · exact ⟨rfl, rfl, rfl⟩
    · split
      · exact ⟨rfl, rfl, rfl⟩
      · dsimp only
        split
        · exact ⟨rfl, rfl, rfl⟩
        · exact ⟨rfl, rfl, rfl⟩

theorem cacheSet_global_mem {T : Type} (c : UnifiedCache T) (key : String)
    (d : T) (ttlSeconds now : Nat) (ok1 ok2 : Bool) :
    (cacheSet globalConfig c key d ttlSeconds now ok1 ok2).mem =
      memSet globalConfig.maxMemoryEntries c.mem key d ttlSeconds now := rfl

theorem resolveStep_publish {T : Type} (pf : PendingFetch) (v : T) (now : Nat)
    (ok1 ok2 : Bool) (s : CoordState T) (hid : pf.reqId = s.requestId)
    (hsnap : pf.params = s.currentParams) (hm : s.mounted = true) :
    (resolveStep pf v now ok1 ok2 s).data = some v ∧
    (resolveStep pf v now ok1 ok2 s).fromCache = false ∧
    (resolveStep pf v now ok1 ok2 s).error = none ∧
    (resolveStep pf v now ok1 ok2 s).loading = false ∧
    (pf.enableCache = true →
      keyFind (resolveStep pf v now ok1 ok2 s).cache.mem pf.cacheKey =
        some { data := v, timestamp := now, ttl := pf.ttl }) := by
  unfold resolveStep
  rw [if_neg (by simp [hid]), if_neg (by simp [hsnap]), if_neg (by simp [hm])]
  dsimp only
  by_cases he : pf.enableCache = true
  · rw [if_pos he]
    refine ⟨rfl, rfl, rfl, rfl, fun _ => ?_⟩
    exact keyFind_memSet_self _ _ _ _ _ _
  · rw [if_neg he]
    exact ⟨rfl, rfl, rfl, rfl, fun hc => absurd hc he⟩

theorem rejectStep_preserves {T : Type} (pf : PendingFetch) (e : Option String)
    (s : CoordState T) :
    (rejectStep pf e s).requestId = s.requestId ∧
    (rejectStep pf e s).currentParams = s.currentParams ∧
    (rejectStep pf e s).mounted = s.mounted ∧
    (rejectStep pf e s).cache = s.cache ∧
    (rejectStep pf e s).data = s.data := by
  unfold rejectStep
  split
  · exact ⟨rfl, rfl, rfl, rfl, rfl⟩
  · exact ⟨rfl, rfl, rfl, rfl, rfl⟩

theorem depsChangeStep_fields {T : Type} (fm : Bool) (dm : Nat)
    (s : CoordState T) :
    (depsChangeStep fm dm s).requestId = s.requestId ∧
    (depsChangeStep fm dm s).currentParams = s.currentParams ∧
    (depsChangeStep fm dm s).mounted = s.mounted ∧
    (depsChangeStep fm dm s).cache = s.cache ∧
    (depsChangeStep fm dm s).data = s.data := by
  unfold depsChangeStep
  dsimp only
  split
  · exact ⟨rfl, rfl, rfl, rfl, rfl⟩
  · exact ⟨rfl, rfl, rfl, rfl, rfl⟩

/- ===================== Claim C8 ===================== -/

/-- C8: a producer rejection (an Error with message m) that passes the
stale-response validity check — same epoch, same snapshot, still mounted —
is surfaced verbatim as the coordinator's error state, loading stops, and
neither the published data nor any cache tier is touched: a previously
cached good value for the key remains stored unchanged after the failed
fetch. -/
theorem c8_error_surfaced {T : Type} (pf : PendingFetch) (m : String)
    (s : CoordState T) (hid : pf.reqId = s.requestId)
    (_hsnap : pf.params = s.currentParams) (hm : s.mounted = true) :
    rejectStep pf (some m) s = { s with error := some m, loading := false } ∧
    (rejectStep pf (some m) s).cache = s.cache ∧
    (rejectStep pf (some m) s).data = s.data := by
  unfold rejectStep
  rw [if_neg (by simp [hid, hm])]
  exact ⟨rfl, rfl, rfl⟩

/-- Witness for c8_error_surfaced: a failed fetch leaves the cached good
value for the key in place and surfaces the message. -/
theorem c8_error_surfaced_witness :
    rejectStep { reqId := 0, params := "A", cacheKey := "k", ttl := 60, enableCache := true }
        (some "boom")
        (initCoord "A"
          ({ mem := [("k", { data := 7, timestamp := 0, ttl := 60 })], ls := [] } :
            UnifiedCache Nat)) =
      { initCoord "A"
          ({ mem := [("k", { data := 7, timestamp := 0, ttl := 60 })], ls := [] } :
            UnifiedCache Nat) with
        error := some "boom", loading := false } ∧
    (rejectStep { reqId := 0, params := "A", cacheKey := "k", ttl := 60, enableCache := true }
        (some "boom")
        (initCoord "A"
          ({ mem := [("k", { data := 7, timestamp := 0, ttl := 60 })], ls := [] } :
            UnifiedCache Nat))).cache =
      (initCoord "A"
        ({ mem := [("k", { data := 7, timestamp := 0, ttl := 60 })], ls := [] } :
          UnifiedCache Nat)).cache ∧
    (rejectStep { reqId := 0, params := "A", cacheKey := "k", ttl := 60, enableCache := true }
        (some "boom")
        (initCoord "A"
          ({ mem := [("k", { data := 7, timestamp := 0, ttl := 60 })], ls := [] } :
            UnifiedCache Nat))).data =
      (initCoord "A"
        ({ mem := [("k", { data := 7, timestamp := 0, ttl := 60 })], ls := [] } :
          UnifiedCache Nat)).data :=
  c8_error_surfaced _ "boom" _ rfl rfl rfl

/- ===================== Claim C9 ===================== -/

/-- C9: when caching is enabled and the tiered cache holds a live entry for
the key at the moment the debounce timer fires (a dispatch with ignoreCache
= false on a mounted coordinator), fetchData publishes the cached value with
fromCache = true, stops loading, clears the error, and returns no pending
fetch — the producer is never invoked for that attempt. -/
theorem c9_cache_first {T : Type} (p : FetchParams) (now : Nat)
    (s : CoordState T) (v : T) (c1 : UnifiedCache T)
    (hec : p.enableCache = true) (hm : s.mounted = true)
    (hhit : cacheGet globalConfig s.cache p.cacheKey now = (some v, c1)) :
    fetchDataStep p false now s =
      ({ s with
          requestId := s.requestId + 1
          currentParams := p.depsJson
          cache := c1
          data := some v
          fromCache := true
          loading := false
          error := none }, none) := by
  unfold fetchDataStep
  dsimp only
  have hcond : (p.enableCache && !false) = true := by rw [hec]; rfl
  rw [if_pos hcond, hhit]
  dsimp only
  rw [if_pos ⟨rfl, hm⟩]

/-- Witness for c9_cache_first: a dispatch over a warm cache publishes from
the cache and invokes no producer. -/
theorem c9_cache_first_witness :
    fetchDataStep { cacheKey := "k", depsJson := "A", ttl := 7200, enableCache := true }
        false 1
        (initCoord "A"
          ({ mem := [("k", { data := 7, timestamp := 0, ttl := 60 })], ls := [] } :
            UnifiedCache Nat)) =
      ({ initCoord "A"
          ({ mem := [("k", { data := 7, timestamp := 0, ttl := 60 })], ls := [] } :
            UnifiedCache Nat) with
          requestId := 1
          currentParams := "A"
          cache := { mem := [("k", { data := 7, timestamp := 0, ttl := 60 })], ls := [] }
          data := some 7
          fromCache := true
          loading := false
          error := none }, none) :=
  c9_cache_first _ 1 _ 7 _ rfl rfl (by decide)

/- ===================== Claim C1 ===================== -/

/-- C1: if a fetch is dispatched for dependency tuple A and, before its
producer resolves, a newer fetch is dispatched for tuple B whose producer
resolves first, then B's resolution publishes vB (fromCache = false, error
cleared, and — when caching is enabled — vB stored in the fast tier under
B's key with B's ttl), and A's later resolution is discarded silently: it
returns the state completely unchanged, performing no state change and no
cache write, so the published data and the cache reflect B's result and
never A's. -/
theorem c1_race_safety {T : Type} (s s1 s2 : CoordState T)
    (pA pB : FetchParams) (igA igB : Bool) (tA tB tRB tRA : Nat) (vA vB : T)
    (okB1 okB2 okA1 okA2 : Bool) (recA recB : PendingFetch)
    (hm : s.mounted = true)
    (hA : fetchDataStep pA igA tA s = (s1, some recA))
    (hB : fetchDataStep pB igB tB s1 = (s2, some recB)) :
    resolveStep recA vA tRA okA1 okA2 (resolveStep recB vB tRB okB1 okB2 s2) =
      resolveStep recB vB tRB okB1 okB2 s2 ∧
    (resolveStep recB vB tRB okB1 okB2 s2).data = some vB ∧
    (resolveStep recB vB tRB okB1 okB2 s2).fromCache = false ∧
    (resolveStep recB vB tRB okB1 okB2 s2).error = none ∧
    (recB.enableCache = true →
      keyFind (resolveStep recB vB tRB okB1 okB2 s2).cache.mem recB.cacheKey =
        some { data := vB, timestamp := tRB, ttl := recB.ttl }) := by
  have specA := fetchDataStep_spec pA igA tA s
  have specB := fetchDataStep_spec pB igB tB s1
  have hs1 : (fetchDataStep pA igA tA s).1 = s1 := by rw [hA]
  have hpfA : (fetchDataStep pA igA tA s).2 = some recA := by rw [hA]
  have hs2 : (fetchDataStep pB igB tB s1).1 = s2 := by rw [hB]
  have hpfB : (fetchDataStep pB igB tB s1).2 = some recB := by rw [hB]
  have h1id : s1.requestId = s.requestId + 1 := by rw [← hs1]; exact specA.1
  have h1m : s1.mounted = s.mounted := by rw [← hs1]; exact specA.2.2.1
  have h2id : s2.requestId = s1.requestId + 1 := by rw [← hs2]; exact specB.1
  have h2par : s2.currentParams = pB.depsJson := by rw [← hs2]; exact specB.2.1
  have h2m : s2.mounted = s1.mounted := by rw [← hs2]; exact specB.2.2.1
  have hrecA := specA.2.2.2 recA hpfA
  have hrecB := specB.2.2.2 recB hpfB
  have hBid : recB.reqId = s2.requestId := by rw [hrecB.1, h2id]
  have hBsnap : recB.params = s2.currentParams := by rw [hrecB.2.1, h2par]
  have hBm : s2.mounted = true := by rw [h2m, h1m, hm]
  have hpub := resolveStep_publish recB vB tRB okB1 okB2 s2 hBid hBsnap hBm
  have hpres := resolveStep_preserves recB vB tRB okB1 okB2 s2
  have hstale :
      recA.reqId ≠ (resolveStep recB vB tRB okB1 okB2 s2).requestId := by
    rw [hrecA.1, hpres.1, h2id, h1id]
    omega
  exact ⟨resolveStep_stale recA vA tRA okA1 okA2 _ hstale, hpub.1, hpub.2.1,
    hpub.2.2.1, hpub.2.2.2.2⟩

/-- Witness for c1_race_safety: a concrete two-dispatch race in which the
newer fetch (tuple B) resolves first and the stale resolution for A is a
no-op. -/
theorem c1_race_safety_witness :
    resolveStep
        (pendOf (fetchDataStep
          { cacheKey := "kA", depsJson := "A", ttl := 7200, enableCache := true }
          false 0 (initCoord "A" ({ mem := [], ls := [] } : UnifiedCache Nat))))
        1 3 true true
        (resolveStep
          (pendOf (fetchDataStep
            { cacheKey := "kB", depsJson := "B", ttl := 7200, enableCache := true }
            false 1
            (fetchDataStep
              { cacheKey := "kA", depsJson := "A", ttl := 7200, enableCache := true }
              false 0 (initCoord "A" ({ mem := [], ls := [] } : UnifiedCache Nat))).1))
          2 2 true true
          (fetchDataStep
            { cacheKey := "kB", depsJson := "B", ttl := 7200, enableCache := true }
            false 1
            (fetchDataStep
              { cacheKey := "kA", depsJson := "A", ttl := 7200, enableCache := true }
              false 0 (initCoord "A" ({ mem := [], ls := [] } : UnifiedCache Nat))).1).1) =
      resolveStep
        (pendOf (fetchDataStep
          { cacheKey := "kB", depsJson := "B", ttl := 7200, enableCache := true }
          false 1
          (fetchDataStep
            { cacheKey := "kA", depsJson := "A", ttl := 7200, enableCache := true }
            false 0 (initCoord "A" ({ mem := [], ls := [] } : UnifiedCache Nat))).1))
        2 2 true true
        (fetchDataStep
          { cacheKey := "kB", depsJson := "B", ttl := 7200, enableCache := true }
          false 1
          (fetchDataStep
            { cacheKey := "kA", depsJson := "A", ttl := 7200, enableCache := true }
            false 0 (initCoord "A" ({ mem := [], ls := [] } : UnifiedCache Nat))).1).1 ∧
    (resolveStep
        (pendOf (fetchDataStep
          { cacheKey := "kB", depsJson := "B", ttl := 7200, enableCache := true }
          false 1
          (fetchDataStep
            { cacheKey := "kA", depsJson := "A", ttl := 7200, enableCache := true }
            false 0 (initCoord "A" ({ mem := [], ls := [] } : UnifiedCache Nat))).1))
        2 2 true true
        (fetchDataStep
          { cacheKey := "kB", depsJson := "B", ttl := 7200, enableCache := true }
          false 1
          (fetchDataStep
            { cacheKey := "kA", depsJson := "A", ttl := 7200, enableCache := true }
            false 0 (initCoord "A" ({ mem := [], ls := [] } : UnifiedCache Nat))).1).1).data =
      some 2 := by
  have h := c1_race_safety
    (initCoord "A" ({ mem := [], ls := [] } : UnifiedCache Nat))
    (fetchDataStep
      { cacheKey := "kA", depsJson := "A", ttl := 7200, enableCache := true }
      false 0 (initCoord "A" ({ mem := [], ls := [] } : UnifiedCache Nat))).1
    (fetchDataStep
      { cacheKey := "kB", depsJson := "B", ttl := 7200, enableCache := true }
      false 1
      (fetchDataStep
        { cacheKey := "kA", depsJson := "A", ttl := 7200, enableCache := true }
        false 0 (initCoord "A" ({ mem := [], ls := [] } : UnifiedCache Nat))).1).1
    { cacheKey := "kA", depsJson := "A", ttl := 7200, enableCache := true }
    { cacheKey := "kB", depsJson := "B", ttl := 7200, enableCache := true }
    false false 0 1 2 3 1 2 true true true true
    (pendOf (fetchDataStep
      { cacheKey := "kA", depsJson := "A", ttl := 7200, enableCache := true }
      false 0 (initCoord "A" ({ mem := [], ls := [] } : UnifiedCache Nat))))
    (pendOf (fetchDataStep
      { cacheKey := "kB", depsJson := "B", ttl := 7200, enableCache := true }
      false 1
      (fetchDataStep
        { cacheKey := "kA", depsJson := "A", ttl := 7200, enableCache := true }
        false 0 (initCoord "A" ({ mem := [], ls := [] } : UnifiedCache Nat))).1))
    rfl (by decide) (by decide)
  exact ⟨h.1, h.2.1⟩

/- ===================== Claim C2 ===================== -/

/-- C2 counterexample: dispatch a fetch for tuple A, then run the
dependency-change effect (the tuple has changed).  The request counter is
not incremented by the change — it still equals the counter captured by the
in-flight fetch — and when that old producer then resolves, before any new
dispatch, its value is published and written to the cache, refuting the
claim that a result for the previous tuple resolving after the change is
never published and never cached. -/
theorem c2_counterexample :
    (depsChangeStep true 100
        (fetchDataStep { cacheKey := "k", depsJson := "A", ttl := 7200, enableCache := true }
          false 0 (initCoord "A" ({ mem := [], ls := [] } : UnifiedCache Nat))).1).requestId =
      (fetchDataStep { cacheKey := "k", depsJson := "A", ttl := 7200, enableCache := true }
        false 0 (initCoord "A" ({ mem := [], ls := [] } : UnifiedCache Nat))).1.requestId ∧
    (resolveStep
        (pendOf (fetchDataStep
          { cacheKey := "k", depsJson := "A", ttl := 7200, enableCache := true }
          false 0 (initCoord "A" ({ mem := [], ls := [] } : UnifiedCache Nat))))
        42 5 true true
        (depsChangeStep true 100
          (fetchDataStep { cacheKey := "k", depsJson := "A", ttl := 7200, enableCache := true }
            false 0 (initCoord "A" ({ mem := [], ls := [] } : UnifiedCache Nat))).1)).data =
      some 42 ∧
    keyFind
        (resolveStep
          (pendOf (fetchDataStep
            { cacheKey := "k", depsJson := "A", ttl := 7200, enableCache := true }
            false 0 (initCoord "A" ({ mem := [], ls := [] } : UnifiedCache Nat))))
          42 5 true true
          (depsChangeStep true 100
            (fetchDataStep { cacheKey := "k", depsJson := "A", ttl := 7200, enableCache := true }
              false 0 (initCoord "A" ({ mem := [], ls := [] } : UnifiedCache Nat))).1)).cache.mem
        "k" =
      some { data := 42, timestamp := 5, ttl := 7200 } := by
  decide

/-- C2 (amended): a dependency change only cancels and reschedules the
debounce timer; the request counter, the stored snapshot, the cache and the
published data are all unchanged by the change effect.  A producer result
for the previous tuple that resolves after the change but before the next
dispatch therefore still passes the guard and is published; only once the
next fetch has been dispatched (incrementing the counter) is any older
in-flight result discarded. -/
theorem c2_amended {T : Type} (s : CoordState T) (fm : Bool) (dm : Nat) :
    (depsChangeStep fm dm s).requestId = s.requestId ∧
    (depsChangeStep fm dm s).currentParams = s.currentParams ∧
    (depsChangeStep fm dm s).cache = s.cache ∧
    (depsChangeStep fm dm s).data = s.data ∧
    (∀ (pf : PendingFetch) (v : T) (now : Nat) (ok1 ok2 : Bool),
       pf.reqId = s.requestId → pf.params = s.currentParams →
       s.mounted = true →
       (resolveStep pf v now ok1 ok2 (depsChangeStep fm dm s)).data = some v) ∧
    (∀ (p : FetchParams) (ig : Bool) (tD : Nat) (pf : PendingFetch) (v : T)
        (now : Nat) (ok1 ok2 : Bool),
       pf.reqId ≤ s.requestId →
       resolveStep pf v now ok1 ok2
           (fetchDataStep p ig tD (depsChangeStep fm dm s)).1 =
         (fetchDataStep p ig tD (depsChangeStep fm dm s)).1) := by
  have hf := depsChangeStep_fields fm dm s
  refine ⟨hf.1, hf.2.1, hf.2.2.2.1, hf.2.2.2.2, ?_, ?_⟩
  · intro pf v now ok1 ok2 hid hsnap hmnt
    exact (resolveStep_publish pf v now ok1 ok2 _ (by rw [hid, hf.1])
      (by rw [hsnap, hf.2.1]) (by rw [hf.2.2.1, hmnt])).1
  · intro p ig tD pf v now ok1 ok2 hle
    apply resolveStep_stale
    have hspec := (fetchDataStep_spec p ig tD (depsChangeStep fm dm s)).1
    rw [hspec, hf.1]
    omega

/-- Witness for c2_amended: the change effect leaves the counter at 0, an
in-flight result for the unchanged counter is still published, and after the
next dispatch it would be discarded. -/
theorem c2_amended_witness :
    (depsChangeStep true 100
        (initCoord "A" ({ mem := [], ls := [] } : UnifiedCache Nat))).requestId =
      (initCoord "A" ({ mem := [], ls := [] } : UnifiedCache Nat)).requestId ∧
    (resolveStep { reqId := 0, params := "A", cacheKey := "k", ttl := 60, enableCache := false }
        7 5 true true
        (depsChangeStep true 100
          (initCoord "A" ({ mem := [], ls := [] } : UnifiedCache Nat)))).data = some 7 ∧
    resolveStep { reqId := 0, params := "A", cacheKey := "k", ttl := 60, enableCache := false }
        7 5 true true
        (fetchDataStep { cacheKey := "k", depsJson := "B", ttl := 60, enableCache := true }
          false 2
          (depsChangeStep true 100
            (initCoord "A" ({ mem := [], ls := [] } : UnifiedCache Nat)))).1 =
      (fetchDataStep { cacheKey := "k", depsJson := "B", ttl := 60, enableCache := true }
        false 2
        (depsChangeStep true 100
          (initCoord "A" ({ mem := [], ls := [] } : UnifiedCache Nat)))).1 := by
  have h := c2_amended (T := Nat)
    (initCoord "A" ({ mem := [], ls := [] } : UnifiedCache Nat)) true 100
  exact ⟨h.1,
    h.2.2.2.2.1 { reqId := 0, params := "A", cacheKey := "k", ttl := 60, enableCache := false }
      7 5 true true rfl rfl rfl,
    h.2.2.2.2.2 { cacheKey := "k", depsJson := "B", ttl := 60, enableCache := true }
      false 2 { reqId := 0, params := "A", cacheKey := "k", ttl := 60, enableCache := false }
      7 5 true true (by decide)⟩

/- ===================== Claim C10 ===================== -/

theorem stepEvent_preserves_consistent {T : Type} (e : CoordEvent T)
    (st : TraceState T) (h : pendingConsistent st) :
    pendingConsistent (stepEvent e st) := by
  cases e with
  | depsChange fm dm =>
    intro pf hpf
    have hf := depsChangeStep_fields fm dm st.coord
    rcases h pf hpf with ⟨hle, heq⟩
    exact ⟨by rw [stepEvent]; rw [hf.1]; exact hle,
      by rw [stepEvent]; rw [hf.1, hf.2.1]; exact heq⟩
  | dispatch p ig now =>
    intro pf hpf
    rw [stepEvent] at hpf ⊢
    dsimp only at hpf ⊢
    have hspec := fetchDataStep_spec p ig now { st.coord with timer := none }
    rcases List.mem_append.mp hpf with hold | hnew
    · rcases h pf hold with ⟨hle, _⟩
      constructor
      · rw [hspec.1]
        exact Nat.le_succ_of_le hle
      · intro heq
        exfalso
        rw [hspec.1] at heq
        dsimp only at heq
        omega
    · have hsome : (fetchDataStep p ig now { st.coord with timer := none }).2 = some pf :=
        Option.mem_toList.mp hnew
      have hrec := hspec.2.2.2 pf hsome
      constructor
      · rw [hspec.1, hrec.1]
      · intro _
        rw [hrec.2.1, hspec.2.1]
  | resolve i v now ok1 ok2 =>
    intro pf hpf
    rw [stepEvent] at hpf ⊢
    cases hidx : st.pending[i]? with
    | none =>
      rw [hidx] at hpf
      dsimp only at hpf ⊢
      exact h pf hpf
    | some pf0 =>
      rw [hidx] at hpf
      dsimp only at hpf ⊢
      have hmem : pf ∈ st.pending := (List.eraseIdx_sublist _ i).subset hpf
      rcases h pf hmem with ⟨hle, heq⟩
      have hpres := resolveStep_preserves pf0 v now ok1 ok2 st.coord
      exact ⟨by rw [hpres.1]; exact hle,
        by rw [hpres.1, hpres.2.1]; exact heq⟩
  | reject i e0 =>
    intro pf hpf
    rw [stepEvent] at hpf ⊢
    cases hidx : st.pending[i]? with
    | none =>
      rw [hidx] at hpf
      dsimp only at hpf ⊢
      exact h pf hpf
    | some pf0 =>
      rw [hidx] at hpf
      dsimp only at hpf ⊢
      have hmem : pf ∈ st.pending := (List.eraseIdx_sublist _ i).subset hpf
      rcases h pf hmem with ⟨hle, heq⟩
      have hpres := rejectStep_preserves pf0 e0 st.coord
      exact ⟨by rw [hpres.1]; exact hle,
        by rw [hpres.1, hpres.2.1]; exact heq⟩
  | clearCache k =>
    intro pf hpf
    exact h pf hpf
  | unmount =>
    intro pf hpf
    exact h pf hpf

theorem runEvents_preserves_consistent {T : Type} (evs : List (CoordEvent T)) :
    ∀ st : TraceState T, pendingConsistent st →
      pendingConsistent (runEvents evs st) := by
  induction evs with
  | nil => intro st h; exact h
  | cons e t ih =>
    intro st h
    exact ih _ (stepEvent_preserves_consistent e st h)

/-- C10: along every event trace of a fresh coordinator, the stored snapshot
is mutated only at fetch dispatch, in the same step that increments the
request counter; consequently every in-flight fetch whose captured counter
equals the current counter also has its captured snapshot equal to the
current stored snapshot — the snapshot half of the stale-response guard is
never the sole reason a result is discarded. -/
theorem c10_snapshot_epoch_invariant {T : Type} (evs : List (CoordEvent T))
    (depsJson : String) (cache : UnifiedCache T) (pf : PendingFetch)
    (hmem : pf ∈ (runEvents evs (initTrace depsJson cache)).pending)
    (hid : pf.reqId = (runEvents evs (initTrace depsJson cache)).coord.requestId) :
    pf.params = (runEvents evs (initTrace depsJson cache)).coord.currentParams := by
  have hinit : pendingConsistent (initTrace depsJson cache (T := T)) := by
    intro pf0 hpf0
    simp [initTrace] at hpf0
  exact ((runEvents_preserves_consistent evs _ hinit) pf hmem).2 hid

/-- Witness for c10_snapshot_epoch_invariant on a one-dispatch trace. -/
theorem c10_snapshot_epoch_invariant_witness :
    (pendOf (fetchDataStep
        { cacheKey := "k", depsJson := "A", ttl := 7200, enableCache := true }
        false 0 (initCoord "Z" ({ mem := [], ls := [] } : UnifiedCache Nat)))).params =
      (runEvents
        [CoordEvent.dispatch
          { cacheKey := "k", depsJson := "A", ttl := 7200, enableCache := true }
          false 0]
        (initTrace "Z" ({ mem := [], ls := [] } : UnifiedCache Nat))).coord.currentParams :=
  c10_snapshot_epoch_invariant
    [CoordEvent.dispatch
      { cacheKey := "k", depsJson := "A", ttl := 7200, enableCache := true }
      false 0]
    "Z" { mem := [], ls := [] }
    (pendOf (fetchDataStep
      { cacheKey := "k", depsJson := "A", ttl := 7200, enableCache := true }
      false 0 (initCoord "Z" ({ mem := [], ls := [] } : UnifiedCache Nat))))
    (by decide) (by decide)

end DecoTV
